import Mathlib

/-!
# VideoAudioMerger: the download-and-merge pipeline of `main.go`

A shallow embedding of the functions behind the Start button: `ProgressReader`,
`downloadFile`, `getFFmpegPath`, `getVideoDurationInMs`, `mergeVideoAndAudio`,
`deriveFileNameFromURL` and the worker of the Start handler.  What the operating system, the
network and the external tool return is given as data (`DownloadRun`, `ProbeRun`, `MergeRun`,
`RunEnv`); the functions compute from it what the program returns, the values it hands to
the progress bar, and the files it creates and removes.

Go errors are their message texts (`none` is nil); `io.EOF` is the text `EOF`.
-/

namespace VideoAudioMerger

/-! ## Model of the binary64 arithmetic the program uses

The program converts 64-bit integers with `float64(..)`, divides two such
values and compares the quotient with `1.0`.  A finite binary64 number is
represented by its rational value (the two signed zeros are identified: the
program only compares and forwards values).  `roundNearestEven` rounds a rational
to 53 significant bits, ties to even.  The exponent is unbounded: the operands
are conversions of 64-bit integers, so a non-zero quotient has magnitude between
`2^-63` and `2^63` and never meets the subnormal or the overflow range. -/

/-- Nearest integer, ties to the even neighbour. -/
def roundHalfEven (x : ℚ) : ℤ :=
  let f := ⌊x⌋
  if x - f < 1 / 2 then f
  else if 1 / 2 < x - f then f + 1
  else if f % 2 = 0 then f else f + 1

/-- Rounding of a positive rational to 53 significant bits. -/
def roundPos (x : ℚ) : ℚ :=
  let e := Int.log 2 x
  (roundHalfEven (x * (2 : ℚ) ^ (52 - e)) : ℚ) * (2 : ℚ) ^ (e - 52)

/-- Round to nearest binary64, ties to even. -/
def roundNearestEven (x : ℚ) : ℚ :=
  if x = 0 then 0 else if 0 < x then roundPos x else -roundPos (-x)

/-- Values of type `float64`. -/
inductive F64 where
  | fin (q : ℚ)
  | posInf
  | negInf
  | nan
  deriving DecidableEq

/-- The constant `1.0`. -/
def F64.one : F64 := F64.fin 1

/-- The comparison `x > 1.0` (false for NaN). -/
def F64.gtOne : F64 → Bool
  | F64.fin q => decide (1 < q)
  | F64.posInf => true
  | F64.negInf => false
  | F64.nan => false

/-- The expression `float64(a) / float64(b)` for 64-bit integers `a`, `b`. -/
def float64Div (a b : Int) : F64 :=
  let x := roundNearestEven a
  let y := roundNearestEven b
  if y = 0 then
    if 0 < x then F64.posInf else if x < 0 then F64.negInf else F64.nan
  else F64.fin (roundNearestEven (x / y))

/-- The statement `if progress > 1.0 { progress = 1.0 }`. -/
def clampOne (progress : F64) : F64 :=
  if progress.gtOne then F64.one else progress

/-- The finite value of `float64(a) / float64(b)` when `float64(b)` is not zero. -/
def quotient (a b : Int) : ℚ :=
  roundNearestEven (roundNearestEven a / roundNearestEven b)

/-! ## `ProgressReader` (main.go, lines 280-298) -/

/-- Two's-complement wrap of a mathematical integer into `int64`. -/
def wrapInt64 (x : Int) : Int := (x + 2 ^ 63) % 2 ^ 64 - 2 ^ 63

/-- What one call of the wrapped `Reader.Read` returns: the byte count and the error. -/
structure ReadResult where
  n : Int
  err : Option String
  deriving DecidableEq

/-- The counting fields of `ProgressReader`; the wrapped reader is given by the results of
its calls and `UpdateProgress` by the list of values it receives. -/
structure ProgressReader where
  Total : Int
  Current : Int
  deriving DecidableEq

/-- Method `(*ProgressReader).Read`: the new state, the values passed to `UpdateProgress`
by this call, and the pair `(n, err)` returned to the caller. -/
def ProgressReader.Read (pr : ProgressReader) (r : ReadResult) :
    ProgressReader × List F64 × ReadResult :=
  if r.n > 0 then
    let cur := wrapInt64 (pr.Current + r.n)
    let progress := clampOne (float64Div cur pr.Total)
    ({ pr with Current := cur }, [progress], r)
  else (pr, [], r)

/-- The values `UpdateProgress` receives over a sequence of `Read` calls. -/
def ProgressReader.reads (pr : ProgressReader) : List ReadResult → List F64
  | [] => []
  | r :: rs => (pr.Read r).2.1 ++ ProgressReader.reads (pr.Read r).1 rs

/-- Running totals `c + n1`, `c + n1 + n2`, ... of a list of byte counts. -/
def runningTotals (c : Int) : List Int → List Int
  | [] => []
  | n :: ns => (c + n) :: runningTotals (c + n) ns

/-! ## Strings and `strconv.ParseInt`

Texts are lists of characters.  The separators and patterns the program uses are ASCII, so
splitting and prefix tests agree with Go's byte-wise functions on UTF-8 text. -/

/-- Library function `strings.HasPrefix`. -/
def hasPrefix (s pre : List Char) : Bool := pre.isPrefixOf s

/-- Library function `strings.TrimPrefix`. -/
def trimPrefix (s pre : List Char) : List Char :=
  if hasPrefix s pre then s.drop pre.length else s

/-- Library function `strings.HasSuffix`. -/
def hasSuffix (s suf : List Char) : Bool := suf.isSuffixOf s

/-- Library function `strings.Contains`. -/
def containsStr : List Char → List Char → Bool
  | [], sub => sub.isEmpty
  | c :: cs, sub => hasPrefix (c :: cs) sub || containsStr cs sub

/-- Library function `strings.Split(s, sep)` for a one-character separator. -/
def splitOn (sep : Char) : List Char → List (List Char)
  | [] => [[]]
  | c :: cs =>
    if c = sep then [] :: splitOn sep cs
    else
      match splitOn sep cs with
      | [] => [[c]]
      | seg :: segs => (c :: seg) :: segs

/-- An ASCII decimal digit, the class `\d` and the digits `ParseInt` accepts in base 10. -/
def isDigit (c : Char) : Bool := decide (48 ≤ c.toNat) && decide (c.toNat ≤ 57)

/-- The value of a decimal digit. -/
def digitVal (c : Char) : Nat := c.toNat - 48

/-- Outcome of the digit loop of `strconv.ParseUint`: a value, a syntax error or a range
error. -/
inductive UintResult where
  | value (n : Nat)
  | malformed
  | overflow
  deriving DecidableEq

/-- The digit loop of `strconv.ParseUint(s, 10, 64)`.  A character that is not a digit is a
syntax error; the first digit that takes the value to `2^64` or beyond is a range error,
returned at once, before the rest of the text is looked at. -/
def parseDigits : List Char → Nat → UintResult
  | [], acc => UintResult.value acc
  | c :: cs, acc =>
    if isDigit c then
      if 2 ^ 64 ≤ acc * 10 + digitVal c then UintResult.overflow
      else parseDigits cs (acc * 10 + digitVal c)
    else UintResult.malformed

/-- Library function `strconv.ParseInt(s, 10, 64)`: the value and the error.  A syntax
error gives `0`, a range error gives the nearest bound; both come with a non-nil error. -/
def ParseInt (s : List Char) : Int × Option String :=
  match s with
  | [] => (0, some "invalid syntax")
  | c :: rest =>
    let neg := decide (c = '-')
    let body := if c = '+' ∨ c = '-' then rest else s
    if body = [] then (0, some "invalid syntax")
    else
      match parseDigits body 0 with
      | UintResult.malformed => (0, some "invalid syntax")
      | UintResult.overflow =>
        if neg then (-(2 ^ 63), some "value out of range")
        else (2 ^ 63 - 1, some "value out of range")
      | UintResult.value un =>
        if !neg && decide (2 ^ 63 ≤ un) then (2 ^ 63 - 1, some "value out of range")
        else if neg && decide (2 ^ 63 < un) then (-(2 ^ 63), some "value out of range")
        else (if neg then -(un : Int) else (un : Int), none)

/-- Decimal digits of a natural number, most significant first; `fuel` bounds the length. -/
def natDigits : Nat → Nat → List Char
  | 0, _ => []
  | fuel + 1, n => if n < 10 then [Char.ofNat (48 + n)]
      else natDigits fuel (n / 10) ++ [Char.ofNat (48 + n % 10)]

/-- The decimal text of an integer, as `strconv.FormatInt(n, 10)` writes it. -/
def formatInt (n : Int) : List Char :=
  if n < 0 then '-' :: natDigits (n.natAbs + 1) n.natAbs else natDigits (n.natAbs + 1) n.natAbs

/-! ## Files and the bundled tool (main.go, lines 300-318)

The file list holds the paths that exist when the run starts and the paths the program
itself creates with `os.Create` and `os.WriteFile`; `os.Remove` drops a path from it.  What
the external tool writes is not recorded. -/

/-- What the run takes from its platform. -/
structure Sys where
  /-- The constant `runtime.GOOS`. -/
  goos : String
  /-- The result of `os.TempDir()`. -/
  tempDir : String
  /-- The library function `filepath.Join` on two elements. -/
  join : String → String → String
  /-- The error of `os.WriteFile(ffmpegPath, ffmpegData, 0755)` when the call is made. -/
  writeFileErr : Option String
  /-- Whether `os.Stat(ffmpegPath)` fails with an error other than `file does not exist`;
  `os.IsNotExist` is then false whether or not the file is there. -/
  statFails : Bool

/-- Result of `os.Remove(path)` on the file list. -/
def removeFile (path : String) (files : List String) : List String :=
  files.filter (fun p => p ≠ path)

/-- The path at which the tool is materialised. -/
def ffmpegPathOf (sys : Sys) : String :=
  sys.join sys.tempDir (if sys.goos ≠ "windows" then "ffmpeg" else "ffmpeg.exe")

/-- Function `getFFmpegPath`: the path, the error and the file list afterwards. -/
def getFFmpegPath (sys : Sys) (files : List String) : String × Option String × List String :=
  let ffmpegPath := ffmpegPathOf sys
  if ffmpegPath ∉ files ∧ sys.statFails = false then
    match sys.writeFileErr with
    | some err => ("", some err, files)
    | none => (ffmpegPath, none, ffmpegPath :: files)
  else (ffmpegPath, none, files)

/-! ## Duration prober (main.go, lines 370-395) -/

/-- What the inspect invocation `exec.Command(ffmpegPath, "-i", videoPath).CombinedOutput()`
returns: the captured text and the text of the error, if any. -/
structure ProbeRun where
  output : List Char
  err : Option String

/-- A match of `Duration: (\d{2}):(\d{2}):(\d{2}).(\d{2})` starting at the head of the text:
the four capture groups.  The dot matches any character but a newline. -/
def matchDurationAt (s : List Char) : Option (List Char × List Char × List Char × List Char) :=
  if hasPrefix s "Duration: ".toList then
    match s.drop 10 with
    | h1 :: h2 :: p1 :: m1 :: m2 :: p2 :: s1 :: s2 :: x :: c1 :: c2 :: _ =>
      if isDigit h1 && isDigit h2 && decide (p1 = ':') && isDigit m1 && isDigit m2 &&
          decide (p2 = ':') && isDigit s1 && isDigit s2 && decide (x ≠ '\n') &&
          isDigit c1 && isDigit c2 then
        some ([h1, h2], [m1, m2], [s1, s2], [c1, c2])
      else none
    | _ => none
  else none

/-- Call `durationRegex.FindStringSubmatch`: the capture groups of the leftmost match. -/
def findDuration : List Char → Option (List Char × List Char × List Char × List Char)
  | [] => none
  | c :: cs =>
    match matchDurationAt (c :: cs) with
    | some m => some m
    | none => findDuration cs

/-- Lines 382-394 of `getVideoDurationInMs`: the duration in milliseconds read from the
captured text, and the error. -/
def durationOfOutput (output : List Char) : Int × Option String :=
  match findDuration output with
  | none => (0, some "unable to parse duration")
  | some (h, m, s, c) =>
    (wrapInt64 ((((ParseInt h).1 * 3600 + (ParseInt m).1 * 60 + (ParseInt s).1) * 1000)
      + ((ParseInt c).1 * 10)), none)

/-- Function `getVideoDurationInMs`: the value, the error and the file list afterwards. -/
def getVideoDurationInMs (sys : Sys) (files : List String) (run : ProbeRun) :
    Int × Option String × List String :=
  match getFFmpegPath sys files with
  | (_, some err, files1) => (0, some err, files1)
  | (_, none, files1) =>
    match run.err with
    | some err =>
      if !containsStr err.toList "exit status 1".toList then (0, some err, files1)
      else ((durationOfOutput run.output).1, (durationOfOutput run.output).2, files1)
    | none => ((durationOfOutput run.output).1, (durationOfOutput run.output).2, files1)

/-! ## Merger (main.go, lines 320-368) -/

/-- What the copy-mux invocation does when `mergeVideoAndAudio` runs. -/
structure MergeRun where
  /-- Error of `cmd.StdoutPipe()`. -/
  stdoutPipeErr : Option String
  /-- Error of `cmd.Start()`. -/
  startErr : Option String
  /-- The inspect invocation made by `getVideoDurationInMs(videoPath)`. -/
  probe : ProbeRun
  /-- The lines `scanner.Text()` yields in the reading goroutine. -/
  lines : List (List Char)
  /-- Error of `cmd.Wait()`. -/
  waitErr : Option String

/-- The body of the scanner loop for one line: the values passed to `progressBar.SetValue`. -/
def progressOfLine (totalDurationMs : Int) (line : List Char) : List F64 :=
  if hasPrefix line "out_time_ms=".toList then
    match ParseInt (trimPrefix line "out_time_ms=".toList) with
    | (outTimeMs, none) =>
      if totalDurationMs > 0 then [clampOne (float64Div outTimeMs totalDurationMs)] else []
    | (_, some _) => []
  else []

/-- Result of `mergeVideoAndAudio`. -/
structure MergeResult where
  err : Option String
  /-- The values passed to `progressBar.SetValue`, in order. -/
  progress : List F64
  /-- The lines printed with `fmt.Printf`. -/
  printed : List String
  files : List String

/-- The value of `totalDurationMs` after lines 337-341: the probed duration, or `0` when
the probe failed. -/
def totalDurationOf (sys : Sys) (files : List String) (probe : ProbeRun) : Int :=
  match (getVideoDurationInMs sys files probe).2.1 with
  | some _ => 0
  | none => (getVideoDurationInMs sys files probe).1

/-- Function `mergeVideoAndAudio`.  The four paths are the arguments of the copy-mux command
line; what the process does with them is given by `run`. -/
def mergeVideoAndAudio (sys : Sys) (files : List String) (run : MergeRun)
    (_ffmpegPath _videoPath _audioPath _outputPath : String) : MergeResult :=
  match run.stdoutPipeErr with
  | some err => ⟨some ("failed to get stdout pipe: " ++ err), [], [], files⟩
  | none =>
    match run.startErr with
    | some err => ⟨some ("failed to start ffmpeg: " ++ err), [], [], files⟩
    | none =>
      let probed := getVideoDurationInMs sys files run.probe
      let totalDurationMs := totalDurationOf sys files run.probe
      let printed : List String := match probed.2.1 with
        | some err => ["Warning: Unable to get video duration: " ++ err ++ "\n"]
        | none => []
      let progress := run.lines.flatMap (progressOfLine totalDurationMs)
      match run.waitErr with
      | some err => ⟨some ("ffmpeg error: " ++ err), progress, printed, probed.2.2⟩
      | none => ⟨none, progress, printed, probed.2.2⟩

/-! ## Downloader (main.go, lines 242-278) -/

/-- The fields of `http.Response` the downloader reads; `Body` lists the results of the
successive `Body.Read` calls. -/
structure HttpResponse where
  StatusCode : Int
  Status : String
  ContentLength : Int
  Body : List ReadResult

/-- What the system calls of one `downloadFile` return. -/
structure DownloadRun where
  /-- Error of `os.Create(filepath)`. -/
  createErr : Option String
  /-- Result of `http.Get(url)`. -/
  get : Except String HttpResponse

/-- Call `io.Copy(out, progressReader)` with writes that succeed: bytes written, the values
passed to `UpdateProgress`, and the error (`io.EOF` ends the copy without error; so does
the end of the list of reads). -/
def ioCopy (pr : ProgressReader) : List ReadResult → Int × List F64 × Option String
  | [] => (0, [], none)
  | r :: rs =>
    let step := pr.Read r
    let nw : Int := if step.2.2.n > 0 then step.2.2.n else 0
    match step.2.2.err with
    | some err => (nw, step.2.1, if err = "EOF" then none else some err)
    | none =>
      let rest := ioCopy step.1 rs
      (nw + rest.1, step.2.1 ++ rest.2.1, rest.2.2)

/-- Result of `downloadFile`. -/
structure DownloadResult where
  err : Option String
  /-- Number of `http.Get` calls made. -/
  gets : Nat
  /-- Whether a `ProgressReader` was constructed. -/
  readerBuilt : Bool
  /-- Bytes of the response body written to the destination file. -/
  written : Int
  /-- The values passed to `progressBar.SetValue`, in order. -/
  progress : List F64
  files : List String

/-- Function `downloadFile`.  After `os.Create` succeeded the destination path exists. -/
def downloadFile (files : List String) (filepath : String) (run : DownloadRun) :
    DownloadResult :=
  match run.createErr with
  | some err => ⟨some err, 0, false, 0, [], files⟩
  | none =>
    match run.get with
    | .error err => ⟨some err, 1, false, 0, [], filepath :: files⟩
    | .ok resp =>
      if resp.StatusCode ≠ 200 then
        ⟨some ("bad status: " ++ resp.Status), 1, false, 0, [], filepath :: files⟩
      else if resp.ContentLength ≤ 0 then
        ⟨some "unable to determine file size", 1, false, 0, [], filepath :: files⟩
      else
        let copied := ioCopy ⟨resp.ContentLength, 0⟩ resp.Body
        ⟨copied.2.2, 1, true, copied.1, copied.2.1, filepath :: files⟩

/-! ## Output naming (main.go, lines 397-416) -/

/-- Function `deriveFileNameFromURL`.  The library parser `url.Parse` is a parameter: it gives the
`Path` field of the parsed URL, or `none` for an error. -/
def deriveFileNameFromURL (parse : List Char → Option (List Char))
    (urlStr : List Char) : List Char :=
  match parse urlStr with
  | none => []
  | some path =>
    let pathSegments := splitOn '/' path
    if pathSegments.length > 0 then
      let lastSegment := pathSegments.getLastD []
      let fileName := (splitOn '?' lastSegment).headD []
      if !hasSuffix fileName ".mp4".toList then fileName ++ ".mp4".toList else fileName
    else []

/-- A sample URL parser for the parameter of `deriveFileNameFromURL`: it cuts the fragment,
the query, a scheme and an authority, and does no validation or decoding. -/
def samplePathParser (urlStr : List Char) : Option (List Char) :=
  let noFrag := urlStr.takeWhile (fun c => c ≠ '#')
  let noQuery := noFrag.takeWhile (fun c => c ≠ '?')
  let afterScheme :=
    if noQuery.contains ':' then (noQuery.dropWhile (fun c => c ≠ ':')).drop 1 else noQuery
  if hasPrefix afterScheme "//".toList then
    some ((afterScheme.drop 2).dropWhile (fun c => c ≠ '/'))
  else some afterScheme

/-! ## Pipeline: the worker started by the Start button (main.go, lines 134-203) -/

/-- The four text fields read when the worker starts. -/
structure Inputs where
  videoURLText : String
  audioURLText : String
  destDirPath : String
  outputFileNameText : String

/-- What the system calls of one run return. -/
structure RunEnv where
  sys : Sys
  /-- Whether `os.Stat(destDirPath)` reports that the directory does not exist. -/
  destDirNotExist : Bool
  video : DownloadRun
  audio : DownloadRun
  merge : MergeRun

/-- The four fallible calls of the worker, in program order. -/
inductive Stage where
  | videoDownload
  | audioDownload
  | toolMaterialisation
  | merge
  deriving DecidableEq

/-- Position of a stage in the program. -/
def Stage.rank : Stage → Nat
  | Stage.videoDownload => 0
  | Stage.audioDownload => 1
  | Stage.toolMaterialisation => 2
  | Stage.merge => 3

/-- What the worker does, in order. -/
inductive Event where
  /-- A line appended by `appendOutput`. -/
  | output (text : String)
  | showProgressBar (label : String)
  | hideProgressBar
  /-- A stage is called with these arguments. -/
  | call (stage : Stage) (args : List String)
  /-- A value passed to `progressBar.SetValue` inside a stage. -/
  | setValue (v : F64)
  /-- The stage returned this error (`none` for nil). -/
  | ret (stage : Stage) (err : Option String)
  /-- A call `os.Remove(path)`. -/
  | remove (path : String)
  deriving DecidableEq

/-- Result of one run: the trace and the file list afterwards. -/
structure RunResult where
  trace : List Event
  files : List String

/-- The worker goroutine of the Start handler. -/
def startHandler (env : RunEnv) (inp : Inputs) (files : List String) : RunResult :=
  if inp.videoURLText = "" ∨ inp.audioURLText = "" ∨ inp.destDirPath = "" ∨
      inp.outputFileNameText = "" then
    ⟨[Event.output "Please fill in all fields."], files⟩
  else if env.destDirNotExist then
    ⟨[Event.output "Destination directory does not exist."], files⟩
  else
    let videoDest := env.sys.join inp.destDirPath "video.mp4"
    let audioDest := env.sys.join inp.destDirPath "audio.mp4"
    let finalDest := env.sys.join inp.destDirPath inp.outputFileNameText
    let v := downloadFile files videoDest env.video
    let t1 := [Event.output "Downloading video...", Event.showProgressBar "Downloading video...",
      Event.call Stage.videoDownload [videoDest, inp.videoURLText]] ++
      v.progress.map Event.setValue ++ [Event.ret Stage.videoDownload v.err]
    match v.err with
    | some err =>
      ⟨t1 ++ [Event.output ("Failed to download video: " ++ err), Event.hideProgressBar], v.files⟩
    | none =>
      let a := downloadFile v.files audioDest env.audio
      let t2 := t1 ++ [Event.output "Video download completed.", Event.hideProgressBar,
        Event.output "Downloading audio...", Event.showProgressBar "Downloading audio...",
        Event.call Stage.audioDownload [audioDest, inp.audioURLText]] ++
        a.progress.map Event.setValue ++ [Event.ret Stage.audioDownload a.err]
      match a.err with
      | some err =>
        ⟨t2 ++ [Event.output ("Failed to download audio: " ++ err), Event.hideProgressBar],
          a.files⟩
      | none =>
        let f := getFFmpegPath env.sys a.files
        let t3 := t2 ++ [Event.output "Audio download completed.", Event.hideProgressBar,
          Event.output "Merging video and audio...",
          Event.showProgressBar "Merging video and audio...",
          Event.call Stage.toolMaterialisation [], Event.ret Stage.toolMaterialisation f.2.1]
        match f.2.1 with
        | some err =>
          ⟨t3 ++ [Event.output ("Failed to get ffmpeg path: " ++ err), Event.hideProgressBar],
            f.2.2⟩
        | none =>
          let m := mergeVideoAndAudio env.sys f.2.2 env.merge f.1 videoDest audioDest finalDest
          let t4 := t3 ++ [Event.call Stage.merge [f.1, videoDest, audioDest, finalDest]] ++
            m.progress.map Event.setValue ++ [Event.ret Stage.merge m.err]
          match m.err with
          | some err =>
            ⟨t4 ++ [Event.output ("Failed to merge video and audio: " ++ err),
              Event.hideProgressBar], m.files⟩
          | none =>
            ⟨t4 ++ [Event.output "Merging completed.", Event.hideProgressBar,
              Event.remove videoDest, Event.remove audioDest, Event.remove f.1,
              Event.output ("Process completed. The final video is located at " ++ finalDest)],
              removeFile f.1 (removeFile audioDest (removeFile videoDest m.files))⟩

/-! ## Sample environments -/

/-- A Windows platform whose temporary directory is `/tmp` and whose `filepath.Join` puts a
slash between its two elements. -/
def sampleSys : Sys := ⟨"windows", "/tmp", fun d n => d ++ "/" ++ n, none, false⟩

/-- A download that succeeds: status 200, ten bytes announced and read in two chunks. -/
def sampleDownload : DownloadRun :=
  ⟨none, .ok ⟨200, "200 OK", 10, [⟨4, none⟩, ⟨6, none⟩, ⟨0, some "EOF"⟩]⟩⟩

/-- A download answered with status 404. -/
def notFoundDownload : DownloadRun :=
  ⟨none, .ok ⟨404, "404 Not Found", 9, [⟨9, none⟩, ⟨0, some "EOF"⟩]⟩⟩

/-- An inspect invocation whose text carries a duration of ten seconds. -/
def sampleProbe : ProbeRun :=
  ⟨"Input #0\n  Duration: 00:00:10.00, start: 0.000000\n".toList, some "exit status 1"⟩

/-- An inspect invocation whose text carries no duration. -/
def failedProbe : ProbeRun := ⟨"video.mp4: Invalid data found".toList, some "exit status 1"⟩

/-- A copy-mux invocation that succeeds after one progress line. -/
def sampleMerge : MergeRun := ⟨none, none, sampleProbe, ["out_time_ms=5000".toList], none⟩

/-- A copy-mux invocation that succeeds while the duration probe fails. -/
def unprobedMerge : MergeRun := ⟨none, none, failedProbe, ["out_time_ms=5000".toList], none⟩

/-- A run in which every call succeeds. -/
def sampleEnv : RunEnv := ⟨sampleSys, false, sampleDownload, sampleDownload, sampleMerge⟩

/-- A run whose video download is answered with status 404. -/
def videoFailsEnv : RunEnv := ⟨sampleSys, false, notFoundDownload, sampleDownload, sampleMerge⟩

/-- A run in which only the duration probe fails. -/
def probeFailsEnv : RunEnv := ⟨sampleSys, false, sampleDownload, sampleDownload, unprobedMerge⟩

/-- Inputs naming the output `out.mp4` in directory `d`. -/
def sampleInputs : Inputs := ⟨"http://host/v", "http://host/a", "d", "out.mp4"⟩

/-- Inputs naming the output `video.mp4`, the name of the temporary video file. -/
def clashingInputs : Inputs := ⟨"http://host/v", "http://host/a", "d", "video.mp4"⟩

/-! ## Lemmas and theorems -/

section FloatLemmas

theorem roundHalfEven_intCast (z : ℤ) : roundHalfEven (z : ℚ) = z := by
  simp [roundHalfEven]

theorem floor_le_roundHalfEven (x : ℚ) : ⌊x⌋ ≤ roundHalfEven x := by
  unfold roundHalfEven
  simp only
  split_ifs <;> omega

theorem roundHalfEven_le_floor_add_one (x : ℚ) : roundHalfEven x ≤ ⌊x⌋ + 1 := by
  unfold roundHalfEven
  simp only
  split_ifs <;> omega

theorem roundHalfEven_mono {x y : ℚ} (h : x ≤ y) : roundHalfEven x ≤ roundHalfEven y := by
  have hf : ⌊x⌋ ≤ ⌊y⌋ := Int.floor_mono h
  rcases lt_or_eq_of_le hf with hlt | heq
  · calc roundHalfEven x ≤ ⌊x⌋ + 1 := roundHalfEven_le_floor_add_one x
      _ ≤ ⌊y⌋ := hlt
      _ ≤ roundHalfEven y := floor_le_roundHalfEven y
  · unfold roundHalfEven
    simp only
    rw [heq]
    have hxy : x - (⌊y⌋ : ℚ) ≤ y - (⌊y⌋ : ℚ) := by linarith
    split_ifs <;> first | omega | (exfalso; linarith)

theorem two_zpow_pos (k : ℤ) : (0 : ℚ) < (2 : ℚ) ^ k := by positivity

theorem scaled_bounds {x : ℚ} (hx : 0 < x) :
    (2 : ℚ) ^ (52 : ℤ) ≤ x * (2 : ℚ) ^ (52 - Int.log 2 x) ∧
      x * (2 : ℚ) ^ (52 - Int.log 2 x) ≤ (2 : ℚ) ^ (53 : ℤ) := by
  have h1 : ((2 : ℕ) : ℚ) ^ Int.log 2 x ≤ x := Int.zpow_log_le_self (by norm_num) hx
  have h2 : x < ((2 : ℕ) : ℚ) ^ (Int.log 2 x + 1) := Int.lt_zpow_succ_log_self (by norm_num) x
  have hp := two_zpow_pos (52 - Int.log 2 x)
  push_cast at h1 h2
  constructor
  · have : (2 : ℚ) ^ (52 : ℤ) = (2 : ℚ) ^ Int.log 2 x * (2 : ℚ) ^ (52 - Int.log 2 x) := by
      rw [← zpow_add₀ (by norm_num : (2 : ℚ) ≠ 0)]; congr 1; ring
    rw [this]
    exact mul_le_mul_of_nonneg_right h1 hp.le
  · have : (2 : ℚ) ^ (53 : ℤ) = (2 : ℚ) ^ (Int.log 2 x + 1) * (2 : ℚ) ^ (52 - Int.log 2 x) := by
      rw [← zpow_add₀ (by norm_num : (2 : ℚ) ≠ 0)]; congr 1; ring
    rw [this]
    exact mul_le_mul_of_nonneg_right h2.le hp.le

theorem roundPos_bounds {x : ℚ} (hx : 0 < x) :
    (2 : ℚ) ^ Int.log 2 x ≤ roundPos x ∧ roundPos x ≤ (2 : ℚ) ^ (Int.log 2 x + 1) := by
  obtain ⟨hlo, hhi⟩ := scaled_bounds hx
  have hp := two_zpow_pos (Int.log 2 x - 52)
  have e1 : (2 : ℚ) ^ (52 : ℤ) = (((2 : ℤ) ^ (52 : ℕ) : ℤ) : ℚ) := by norm_num
  have e2 : (2 : ℚ) ^ (53 : ℤ) = (((2 : ℤ) ^ (53 : ℕ) : ℤ) : ℚ) := by norm_num
  have r1 : (2 : ℤ) ^ (52 : ℕ) ≤ roundHalfEven (x * (2 : ℚ) ^ (52 - Int.log 2 x)) := by
    have := roundHalfEven_mono (e1 ▸ hlo)
    rwa [roundHalfEven_intCast] at this
  have r2 : roundHalfEven (x * (2 : ℚ) ^ (52 - Int.log 2 x)) ≤ (2 : ℤ) ^ (53 : ℕ) := by
    have := roundHalfEven_mono (e2 ▸ hhi)
    rwa [roundHalfEven_intCast] at this
  have q1 : (2 : ℚ) ^ (52 : ℤ) ≤ (roundHalfEven (x * (2 : ℚ) ^ (52 - Int.log 2 x)) : ℚ) := by
    rw [e1]; exact_mod_cast r1
  have q2 : (roundHalfEven (x * (2 : ℚ) ^ (52 - Int.log 2 x)) : ℚ) ≤ (2 : ℚ) ^ (53 : ℤ) := by
    rw [e2]; exact_mod_cast r2
  unfold roundPos
  simp only
  constructor
  · have : (2 : ℚ) ^ Int.log 2 x = (2 : ℚ) ^ (52 : ℤ) * (2 : ℚ) ^ (Int.log 2 x - 52) := by
      rw [← zpow_add₀ (by norm_num : (2 : ℚ) ≠ 0)]; congr 1; ring
    rw [this]
    exact mul_le_mul_of_nonneg_right q1 hp.le
  · have : (2 : ℚ) ^ (Int.log 2 x + 1) = (2 : ℚ) ^ (53 : ℤ) * (2 : ℚ) ^ (Int.log 2 x - 52) := by
      rw [← zpow_add₀ (by norm_num : (2 : ℚ) ≠ 0)]; congr 1; ring
    rw [this]
    exact mul_le_mul_of_nonneg_right q2 hp.le

theorem roundPos_pos {x : ℚ} (hx : 0 < x) : 0 < roundPos x :=
  lt_of_lt_of_le (two_zpow_pos _) (roundPos_bounds hx).1

theorem roundPos_mono {x y : ℚ} (hx : 0 < x) (h : x ≤ y) : roundPos x ≤ roundPos y := by
  have hy : 0 < y := lt_of_lt_of_le hx h
  have hl : Int.log 2 x ≤ Int.log 2 y := Int.log_mono_right hx h
  rcases lt_or_eq_of_le hl with hlt | heq
  · calc roundPos x ≤ (2 : ℚ) ^ (Int.log 2 x + 1) := (roundPos_bounds hx).2
      _ ≤ (2 : ℚ) ^ Int.log 2 y := zpow_le_zpow_right₀ (by norm_num) (by omega)
      _ ≤ roundPos y := (roundPos_bounds hy).1
  · unfold roundPos
    simp only
    rw [heq]
    apply mul_le_mul_of_nonneg_right _ (two_zpow_pos _).le
    have : x * (2 : ℚ) ^ (52 - Int.log 2 y) ≤ y * (2 : ℚ) ^ (52 - Int.log 2 y) :=
      mul_le_mul_of_nonneg_right h (two_zpow_pos _).le
    exact_mod_cast roundHalfEven_mono this

theorem roundNearestEven_zero : roundNearestEven 0 = 0 := by simp [roundNearestEven]

theorem roundNearestEven_pos {x : ℚ} (hx : 0 < x) : 0 < roundNearestEven x := by
  unfold roundNearestEven
  rw [if_neg hx.ne', if_pos hx]
  exact roundPos_pos hx

theorem roundNearestEven_neg {x : ℚ} (hx : x < 0) : roundNearestEven x < 0 := by
  unfold roundNearestEven
  rw [if_neg hx.ne, if_neg (not_lt.mpr hx.le)]
  have := roundPos_pos (neg_pos.mpr hx)
  linarith

theorem roundNearestEven_nonneg {x : ℚ} (hx : 0 ≤ x) : 0 ≤ roundNearestEven x := by
  rcases hx.eq_or_lt with h | h
  · rw [← h, roundNearestEven_zero]
  · exact (roundNearestEven_pos h).le

theorem roundNearestEven_mono {x y : ℚ} (h : x ≤ y) :
    roundNearestEven x ≤ roundNearestEven y := by
  rcases lt_trichotomy x 0 with hx | hx | hx
  · rcases lt_trichotomy y 0 with hy | hy | hy
    · unfold roundNearestEven
      rw [if_neg hx.ne, if_neg (not_lt.mpr hx.le), if_neg hy.ne, if_neg (not_lt.mpr hy.le)]
      have := roundPos_mono (neg_pos.mpr hy) (neg_le_neg h)
      linarith
    · rw [hy, roundNearestEven_zero]; exact (roundNearestEven_neg hx).le
    · exact le_trans (roundNearestEven_neg hx).le (roundNearestEven_pos hy).le
  · rw [hx, roundNearestEven_zero]; exact roundNearestEven_nonneg (hx ▸ h)
  · have hy : 0 < y := lt_of_lt_of_le hx h
    unfold roundNearestEven
    rw [if_neg hx.ne', if_pos hx, if_neg hy.ne', if_pos hy]
    exact roundPos_mono hx h

/-- A positive rational whose 53-bit scaled significand is an integer is kept. -/
theorem roundPos_exact {x : ℚ} (m : ℤ) (hm : x * (2 : ℚ) ^ (52 - Int.log 2 x) = m) :
    roundPos x = x := by
  unfold roundPos
  simp only
  rw [hm, roundHalfEven_intCast, ← hm, mul_assoc, ← zpow_add₀ (by norm_num : (2 : ℚ) ≠ 0)]
  have : (52 - Int.log 2 x + (Int.log 2 x - 52)) = 0 := by ring
  rw [this]; simp

theorem roundNearestEven_one : roundNearestEven 1 = 1 := by
  unfold roundNearestEven
  rw [if_neg one_ne_zero, if_pos one_pos]
  apply roundPos_exact ((2 : ℤ) ^ (52 : ℕ))
  rw [Int.log_one_right]; norm_num

theorem roundNearestEven_half : roundNearestEven (1 / 2) = 1 / 2 := by
  unfold roundNearestEven
  rw [if_neg (by norm_num), if_pos (by norm_num)]
  apply roundPos_exact ((2 : ℤ) ^ (52 : ℕ))
  have : Int.log 2 (1 / 2 : ℚ) = -1 := by
    have := Int.log_zpow (R := ℚ) (b := 2) (by norm_num) (-1)
    rw [← this]; congr 1; norm_num
  rw [this]; norm_num

end FloatLemmas

section AccuracyLemmas

theorem roundHalfEven_near (y : ℚ) :
    y - 1 / 2 ≤ (roundHalfEven y : ℚ) ∧ (roundHalfEven y : ℚ) ≤ y + 1 / 2 := by
  have h1 : (⌊y⌋ : ℚ) ≤ y := Int.floor_le y
  have h2 : y < (⌊y⌋ : ℚ) + 1 := Int.lt_floor_add_one y
  unfold roundHalfEven
  simp only
  split_ifs with ha hb hc
  · constructor <;> linarith
  · push_cast
    constructor <;> linarith
  · have hd : y - (⌊y⌋ : ℚ) = 1 / 2 := le_antisymm (not_lt.mp hb) (not_lt.mp ha)
    constructor <;> linarith
  · have hd : y - (⌊y⌋ : ℚ) = 1 / 2 := le_antisymm (not_lt.mp hb) (not_lt.mp ha)
    push_cast
    constructor <;> linarith

/-- Rounding a positive rational moves it by at most the fraction `2^-53` of itself. -/
theorem roundPos_near {x : ℚ} (hx : 0 < x) :
    x * (1 - 1 / 2 ^ 53) ≤ roundPos x ∧ roundPos x ≤ x * (1 + 1 / 2 ^ 53) := by
  have hlog : ((2 : ℕ) : ℚ) ^ Int.log 2 x ≤ x := Int.zpow_log_le_self (by norm_num) hx
  push_cast at hlog
  obtain ⟨hlo, hhi⟩ := roundHalfEven_near (x * (2 : ℚ) ^ (52 - Int.log 2 x))
  have hp := two_zpow_pos (Int.log 2 x - 52)
  have hcancel : (2 : ℚ) ^ (52 - Int.log 2 x) * (2 : ℚ) ^ (Int.log 2 x - 52) = 1 := by
    rw [← zpow_add₀ (by norm_num : (2 : ℚ) ≠ 0)]
    have : (52 - Int.log 2 x + (Int.log 2 x - 52)) = 0 := by ring
    rw [this]; simp
  have hscale : (2 : ℚ) ^ (Int.log 2 x - 52) = (2 : ℚ) ^ Int.log 2 x * (1 / 2 ^ 52) := by
    rw [zpow_sub₀ (by norm_num : (2 : ℚ) ≠ 0)]
    norm_num
    ring
  have hsmall : (1 / 2 : ℚ) * (2 : ℚ) ^ (Int.log 2 x - 52) ≤ x * (1 / 2 ^ 53) := by
    rw [hscale]
    have : (1 / 2 : ℚ) * ((2 : ℚ) ^ Int.log 2 x * (1 / 2 ^ 52))
        = (2 : ℚ) ^ Int.log 2 x * (1 / 2 ^ 53) := by ring
    rw [this]
    exact mul_le_mul_of_nonneg_right hlog (by positivity)
  have hx' : x = x * (2 : ℚ) ^ (52 - Int.log 2 x) * (2 : ℚ) ^ (Int.log 2 x - 52) := by
    rw [mul_assoc, hcancel, mul_one]
  unfold roundPos
  simp only
  have e1 := mul_le_mul_of_nonneg_right hlo hp.le
  have e2 := mul_le_mul_of_nonneg_right hhi hp.le
  constructor
  · nlinarith [e1, hsmall, hx']
  · nlinarith [e2, hsmall, hx']

theorem roundNearestEven_near {x : ℚ} (hx : 0 ≤ x) :
    x * (1 - 1 / 2 ^ 53) ≤ roundNearestEven x ∧ roundNearestEven x ≤ x * (1 + 1 / 2 ^ 53) := by
  rcases hx.eq_or_lt with h | h
  · rw [← h, roundNearestEven_zero]; simp
  · unfold roundNearestEven
    rw [if_neg h.ne', if_pos h]
    exact roundPos_near h

/-- The reported quotient of two converted integers differs from the exact ratio by at most
the fraction `2^-51` of that ratio. -/
theorem quotient_near {a b : Int} (ha : 0 ≤ a) (hb : 0 < b) :
    (a : ℚ) / b * (1 - 1 / 2 ^ 51) ≤ quotient a b ∧
      quotient a b ≤ (a : ℚ) / b * (1 + 1 / 2 ^ 51) := by
  have haq : (0 : ℚ) ≤ a := by exact_mod_cast ha
  have hbq : (0 : ℚ) < b := by exact_mod_cast hb
  obtain ⟨a1, a2⟩ := roundNearestEven_near haq
  obtain ⟨b1, b2⟩ := roundNearestEven_near hbq.le
  have hA : 0 ≤ roundNearestEven (a : ℚ) := roundNearestEven_nonneg haq
  have hB : 0 < roundNearestEven (b : ℚ) := roundNearestEven_pos hbq
  have hX : 0 ≤ roundNearestEven (a : ℚ) / roundNearestEven (b : ℚ) := div_nonneg hA hB.le
  obtain ⟨q1, q2⟩ := roundNearestEven_near hX
  have hr : 0 ≤ (a : ℚ) / b := div_nonneg haq hbq.le
  have hXlo : (a : ℚ) / b * ((1 - 1 / 2 ^ 53) / (1 + 1 / 2 ^ 53))
      ≤ roundNearestEven (a : ℚ) / roundNearestEven (b : ℚ) := by
    rw [le_div_iff₀ hB]
    have h1 : (a : ℚ) / b * ((1 - 1 / 2 ^ 53) / (1 + 1 / 2 ^ 53)) * roundNearestEven (b : ℚ)
        ≤ (a : ℚ) / b * ((1 - 1 / 2 ^ 53) / (1 + 1 / 2 ^ 53)) * (b * (1 + 1 / 2 ^ 53)) :=
      mul_le_mul_of_nonneg_left b2 (mul_nonneg hr (by norm_num))
    have h2 : (a : ℚ) / b * ((1 - 1 / 2 ^ 53) / (1 + 1 / 2 ^ 53)) * (b * (1 + 1 / 2 ^ 53))
        = a * (1 - 1 / 2 ^ 53) := by
      field_simp
    linarith
  have hXhi : roundNearestEven (a : ℚ) / roundNearestEven (b : ℚ)
      ≤ (a : ℚ) / b * ((1 + 1 / 2 ^ 53) / (1 - 1 / 2 ^ 53)) := by
    rw [div_le_iff₀ hB]
    have h1 : (a : ℚ) / b * ((1 + 1 / 2 ^ 53) / (1 - 1 / 2 ^ 53)) * (b * (1 - 1 / 2 ^ 53))
        ≤ (a : ℚ) / b * ((1 + 1 / 2 ^ 53) / (1 - 1 / 2 ^ 53)) * roundNearestEven (b : ℚ) :=
      mul_le_mul_of_nonneg_left b1 (mul_nonneg hr (by norm_num))
    have h2 : (a : ℚ) / b * ((1 + 1 / 2 ^ 53) / (1 - 1 / 2 ^ 53)) * (b * (1 - 1 / 2 ^ 53))
        = a * (1 + 1 / 2 ^ 53) := by
      field_simp
    linarith
  have c1 : (1 - 1 / 2 ^ 51 : ℚ) ≤ (1 - 1 / 2 ^ 53) / (1 + 1 / 2 ^ 53) * (1 - 1 / 2 ^ 53) := by
    norm_num
  have c2 : (1 + 1 / 2 ^ 53) / (1 - 1 / 2 ^ 53) * (1 + 1 / 2 ^ 53) ≤ (1 + 1 / 2 ^ 51 : ℚ) := by
    norm_num
  unfold quotient
  constructor
  · calc (a : ℚ) / b * (1 - 1 / 2 ^ 51)
        ≤ (a : ℚ) / b * ((1 - 1 / 2 ^ 53) / (1 + 1 / 2 ^ 53) * (1 - 1 / 2 ^ 53)) :=
          mul_le_mul_of_nonneg_left c1 hr
      _ = (a : ℚ) / b * ((1 - 1 / 2 ^ 53) / (1 + 1 / 2 ^ 53)) * (1 - 1 / 2 ^ 53) := by ring
      _ ≤ roundNearestEven (a : ℚ) / roundNearestEven (b : ℚ) * (1 - 1 / 2 ^ 53) :=
          mul_le_mul_of_nonneg_right hXlo (by norm_num)
      _ ≤ _ := q1
  · calc roundNearestEven (roundNearestEven (a : ℚ) / roundNearestEven (b : ℚ))
        ≤ roundNearestEven (a : ℚ) / roundNearestEven (b : ℚ) * (1 + 1 / 2 ^ 53) := q2
      _ ≤ (a : ℚ) / b * ((1 + 1 / 2 ^ 53) / (1 - 1 / 2 ^ 53)) * (1 + 1 / 2 ^ 53) :=
          mul_le_mul_of_nonneg_right hXhi (by norm_num)
      _ = (a : ℚ) / b * ((1 + 1 / 2 ^ 53) / (1 - 1 / 2 ^ 53) * (1 + 1 / 2 ^ 53)) := by ring
      _ ≤ (a : ℚ) / b * (1 + 1 / 2 ^ 51) := mul_le_mul_of_nonneg_left c2 hr

end AccuracyLemmas

section ProgressReaderLemmas

theorem wrapInt64_of_range {x : Int} (h0 : -(2 ^ 63) ≤ x) (h1 : x < 2 ^ 63) : wrapInt64 x = x := by
  unfold wrapInt64
  omega

theorem clampOne_fin_of_le {q : ℚ} (h : q ≤ 1) : clampOne (F64.fin q) = F64.fin q := by
  simp [clampOne, F64.gtOne, not_lt.mpr h]

theorem clampOne_fin_of_gt {q : ℚ} (h : 1 < q) : clampOne (F64.fin q) = F64.fin 1 := by
  simp [clampOne, F64.gtOne, h, F64.one]

theorem float64Div_of_pos (a : Int) {b : Int} (hb : 0 < b) :
    float64Div a b = F64.fin (quotient a b) := by
  have : 0 < roundNearestEven (b : ℚ) := roundNearestEven_pos (by exact_mod_cast hb)
  simp [float64Div, this.ne', quotient]

theorem quotient_mono {a a' b : Int} (hb : 0 < b) (h : a ≤ a') :
    quotient a b ≤ quotient a' b := by
  have hpos : 0 < roundNearestEven (b : ℚ) := roundNearestEven_pos (by exact_mod_cast hb)
  apply roundNearestEven_mono
  apply div_le_div_of_nonneg_right _ hpos.le
  exact roundNearestEven_mono (by exact_mod_cast h)

theorem quotient_self {b : Int} (hb : 0 < b) : quotient b b = 1 := by
  have hpos : 0 < roundNearestEven (b : ℚ) := roundNearestEven_pos (by exact_mod_cast hb)
  unfold quotient
  rw [div_self hpos.ne', roundNearestEven_one]

theorem quotient_nonneg {a b : Int} (ha : 0 ≤ a) (hb : 0 < b) : 0 ≤ quotient a b := by
  have hpos : 0 < roundNearestEven (b : ℚ) := roundNearestEven_pos (by exact_mod_cast hb)
  apply roundNearestEven_nonneg
  apply div_nonneg _ hpos.le
  exact roundNearestEven_nonneg (by exact_mod_cast ha)

theorem quotient_neg {a b : Int} (ha : a < 0) (hb : 0 < b) : quotient a b < 0 := by
  have hpos : 0 < roundNearestEven (b : ℚ) := roundNearestEven_pos (by exact_mod_cast hb)
  apply roundNearestEven_neg
  apply div_neg_of_neg_of_pos _ hpos
  exact roundNearestEven_neg (by exact_mod_cast ha)

theorem quotient_le_one {a b : Int} (hb : 0 < b) (h : a ≤ b) : quotient a b ≤ 1 := by
  rw [← quotient_self hb]; exact quotient_mono hb h

theorem reads_eq_map (T : Int) (hT : 0 < T) (hT64 : T < 2 ^ 63) :
    ∀ (rs : List ReadResult) (c : Int), 0 ≤ c → (∀ r ∈ rs, 0 < r.n) →
      c + (rs.map ReadResult.n).sum ≤ T →
      ProgressReader.reads ⟨T, c⟩ rs
        = (runningTotals c (rs.map ReadResult.n)).map (fun s => F64.fin (quotient s T)) := by
  intro rs
  induction rs with
  | nil => intro c _ _ _; rfl
  | cons r rs ih =>
    intro c hc hpos hsum
    have hr : 0 < r.n := hpos r (List.mem_cons_self _ _)
    have hrest : ∀ r' ∈ rs, 0 < r'.n := fun r' h => hpos r' (List.mem_cons_of_mem _ h)
    have hnn : 0 ≤ (rs.map ReadResult.n).sum := by
      apply List.sum_nonneg
      intro x hx
      obtain ⟨r', hr', rfl⟩ := List.mem_map.mp hx
      exact (hrest r' hr').le
    simp only [List.map_cons, List.sum_cons] at hsum
    have hw : wrapInt64 (c + r.n) = c + r.n := wrapInt64_of_range (by omega) (by omega)
    have hle : c + r.n ≤ T := by omega
    simp only [ProgressReader.reads, ProgressReader.Read, if_pos hr, hw, List.map_cons,
      runningTotals, List.singleton_append]
    rw [float64Div_of_pos _ hT, clampOne_fin_of_le (quotient_le_one hT hle)]
    rw [ih (c + r.n) (by omega) hrest (by omega)]

theorem runningTotals_length (c : Int) (ns : List Int) : (runningTotals c ns).length = ns.length := by
  induction ns generalizing c with
  | nil => rfl
  | cons n ns ih => simp [runningTotals, ih]

theorem runningTotals_bounds :
    ∀ (ns : List Int) (c : Int), (∀ n ∈ ns, 0 < n) →
      ∀ s ∈ runningTotals c ns, c < s ∧ s ≤ c + ns.sum := by
  intro ns
  induction ns with
  | nil => intro c _ s hs; simp [runningTotals] at hs
  | cons n ns ih =>
    intro c hpos s hs
    have hn : 0 < n := hpos n (List.mem_cons_self _ _)
    have hrest : ∀ m ∈ ns, 0 < m := fun m h => hpos m (List.mem_cons_of_mem _ h)
    have hnn : 0 ≤ ns.sum := List.sum_nonneg (fun x hx => (hrest x hx).le)
    simp only [runningTotals, List.mem_cons, List.sum_cons] at hs ⊢
    rcases hs with rfl | hs
    · omega
    · have := ih (c + n) hrest s hs
      omega

theorem runningTotals_chain :
    ∀ (ns : List Int) (c : Int), (∀ n ∈ ns, 0 < n) →
      List.Chain (fun a b => a ≤ b) c (runningTotals c ns) := by
  intro ns
  induction ns with
  | nil => intro c _; exact List.Chain.nil
  | cons n ns ih =>
    intro c hpos
    have hn : 0 < n := hpos n (List.mem_cons_self _ _)
    have hrest : ∀ m ∈ ns, 0 < m := fun m h => hpos m (List.mem_cons_of_mem _ h)
    exact List.Chain.cons (by omega) (ih (c + n) hrest)

theorem runningTotals_getLast :
    ∀ (ns : List Int) (c : Int), ns ≠ [] →
      (runningTotals c ns).getLast? = some (c + ns.sum) := by
  intro ns
  induction ns with
  | nil => intro c h; exact absurd rfl h
  | cons n ns ih =>
    intro c _
    cases ns with
    | nil => simp [runningTotals]
    | cons m ms =>
      have := ih (c + n) (List.cons_ne_nil _ _)
      simp only [runningTotals, List.sum_cons] at this ⊢
      rw [List.getLast?_cons_cons, this]
      congr 1; ring

end ProgressReaderLemmas

section ParseLemmas

theorem isDigit_ofNat {d : Nat} (h : d < 10) : isDigit (Char.ofNat (48 + d)) = true := by
  interval_cases d <;> decide

theorem digitVal_ofNat {d : Nat} (h : d < 10) : digitVal (Char.ofNat (48 + d)) = d := by
  interval_cases d <;> decide

theorem isDigit_ne_sign {c : Char} (h : isDigit c = true) : c ≠ '+' ∧ c ≠ '-' := by
  constructor <;> (rintro rfl; revert h; decide)

theorem parseDigits_append (xs ys : List Char) (acc : Nat) :
    parseDigits (xs ++ ys) acc
      = match parseDigits xs acc with
        | UintResult.value m => parseDigits ys m
        | UintResult.malformed => UintResult.malformed
        | UintResult.overflow => UintResult.overflow := by
  induction xs generalizing acc with
  | nil => rfl
  | cons c cs ih =>
    simp only [List.cons_append, parseDigits]
    split_ifs
    · rfl
    · exact ih _
    · rfl

theorem natDigits_ne_nil : ∀ (fuel n : Nat), n < fuel → natDigits fuel n ≠ [] := by
  intro fuel
  induction fuel with
  | zero => intro n h; omega
  | succ f ih =>
    intro n _
    unfold natDigits
    split_ifs <;> simp

theorem natDigits_all_digits : ∀ (fuel n : Nat), ∀ c ∈ natDigits fuel n, isDigit c = true := by
  intro fuel
  induction fuel with
  | zero => intro n c hc; simp [natDigits] at hc
  | succ f ih =>
    intro n c hc
    unfold natDigits at hc
    split_ifs at hc with h
    · rw [List.mem_singleton] at hc
      rw [hc]; exact isDigit_ofNat h
    · rcases List.mem_append.mp hc with hc | hc
      · exact ih _ c hc
      · rw [List.mem_singleton] at hc
        rw [hc]; exact isDigit_ofNat (Nat.mod_lt _ (by norm_num))

theorem parseDigits_natDigits : ∀ (fuel n : Nat), n < fuel → n < 2 ^ 64 →
    parseDigits (natDigits fuel n) 0 = UintResult.value n := by
  intro fuel
  induction fuel with
  | zero => intro n h; omega
  | succ f ih =>
    intro n hn h64
    unfold natDigits
    split_ifs with h
    · have hlt : ¬ (2 : Nat) ^ 64 ≤ 0 * 10 + n := by omega
      simp only [parseDigits, isDigit_ofNat h, digitVal_ofNat h, if_true, if_neg hlt]
      congr 1
      omega
    · have hlt : n / 10 < f := by omega
      have hm : n % 10 < 10 := Nat.mod_lt _ (by norm_num)
      have hval : n / 10 * 10 + n % 10 = n := by omega
      have hno : ¬ (2 : Nat) ^ 64 ≤ n / 10 * 10 + n % 10 := by omega
      rw [parseDigits_append, ih _ hlt (by omega)]
      have hn64 : ¬ (2 : Nat) ^ 64 ≤ n := by omega
      simp only [parseDigits, isDigit_ofNat hm, digitVal_ofNat hm, if_true, hval, if_neg hn64]

/-- The model of `ParseInt` reads back the decimal text of every 64-bit integer. -/
theorem ParseInt_formatInt (n : Int) (h0 : -(2 ^ 63) ≤ n) (h1 : n < 2 ^ 63) :
    ParseInt (formatInt n) = (n, none) := by
  have hpd := parseDigits_natDigits (n.natAbs + 1) n.natAbs (Nat.lt_succ_self _) (by omega)
  have hne := natDigits_ne_nil (n.natAbs + 1) n.natAbs (Nat.lt_succ_self _)
  unfold formatInt
  split_ifs with hneg
  · have hb : ¬ (2 : Nat) ^ 63 < n.natAbs := by omega
    simp only [ParseInt, decide_True, or_true, if_true, if_neg hne, hpd, Bool.not_true,
      Bool.false_and, Bool.true_and, decide_eq_true_eq, if_neg hb]
    simp only [Bool.false_eq_true, if_false, Prod.mk.injEq, and_true]
    omega
  · obtain ⟨c, cs, hcs⟩ := List.exists_cons_of_ne_nil hne
    have hd : isDigit c = true :=
      natDigits_all_digits (n.natAbs + 1) n.natAbs c (by rw [hcs]; exact List.mem_cons_self _ _)
    obtain ⟨hp, hm⟩ := isDigit_ne_sign hd
    have hb : ¬ (2 : Nat) ^ 63 ≤ n.natAbs := by omega
    rw [hcs] at hpd
    simp only [hcs, ParseInt, hp, hm, or_self, if_false, decide_False, hpd, Bool.not_false,
      Bool.true_and, Bool.false_and, decide_eq_true_eq, if_neg hb, Bool.false_eq_true]
    simp only [reduceCtorEq, if_false, Prod.mk.injEq, and_true]
    omega

end ParseLemmas

/-- C1: for a total `T > 0` (an `int64`) and reads with positive byte counts summing to `T`,
a `ProgressReader` with `Total = T`, `Current = 0` calls `UpdateProgress` once per read with
`min(1.0, float64(n1+...+ni)/float64(T))`; the reported values are finite, non-decreasing,
all in `[0,1]`, and the last one is exactly `1.0`.  Each reported value is the rounded
quotient of the running total by `T`, within the fraction `2^-51` of the exact ratio. -/
theorem C1_progress_reader_fractions (T : Int) (rs : List ReadResult)
    (hT : 0 < T) (hT64 : T < 2 ^ 63) (hpos : ∀ r ∈ rs, 0 < r.n)
    (hsum : (rs.map ReadResult.n).sum = T) :
    ProgressReader.reads ⟨T, 0⟩ rs
        = (runningTotals 0 (rs.map ReadResult.n)).map (fun s => clampOne (float64Div s T)) ∧
      (ProgressReader.reads ⟨T, 0⟩ rs).length = rs.length ∧
      (∃ qs : List ℚ, ProgressReader.reads ⟨T, 0⟩ rs = qs.map F64.fin ∧
        qs.Chain' (fun a b => a ≤ b) ∧ (∀ q ∈ qs, 0 ≤ q ∧ q ≤ 1) ∧ qs.getLast? = some 1) ∧
      ProgressReader.reads ⟨T, 0⟩ rs
        = (runningTotals 0 (rs.map ReadResult.n)).map (fun s => F64.fin (quotient s T)) ∧
      (∀ s ∈ runningTotals 0 (rs.map ReadResult.n),
        (s : ℚ) / T * (1 - 1 / 2 ^ 51) ≤ quotient s T ∧
          quotient s T ≤ (s : ℚ) / T * (1 + 1 / 2 ^ 51)) := by
  have hposn : ∀ n ∈ rs.map ReadResult.n, 0 < n := by
    intro n hn
    obtain ⟨r, hr, rfl⟩ := List.mem_map.mp hn
    exact hpos r hr
  have hb := runningTotals_bounds (rs.map ReadResult.n) 0 hposn
  rw [hsum, zero_add] at hb
  have hmain := reads_eq_map T hT hT64 rs 0 le_rfl hpos (by omega)
  have hne : rs.map ReadResult.n ≠ [] := by
    intro h
    rw [h] at hsum
    simp at hsum
    omega
  refine ⟨?_, ?_, ⟨(runningTotals 0 (rs.map ReadResult.n)).map (fun s => quotient s T),
    ?_, ?_, ?_, ?_⟩, hmain, ?_⟩
  · rw [hmain]
    apply List.map_congr_left
    intro s hs
    rw [float64Div_of_pos _ hT, clampOne_fin_of_le (quotient_le_one hT (hb s hs).2)]
  · rw [hmain, List.length_map, runningTotals_length, List.length_map]
  · rw [hmain, List.map_map]; rfl
  · rw [List.chain'_map]
    have hc := (runningTotals_chain (rs.map ReadResult.n) 0 hposn)
    have hc' : List.Chain' (fun a b : Int => a ≤ b) (runningTotals 0 (rs.map ReadResult.n)) :=
      List.Chain'.tail (l := 0 :: runningTotals 0 (List.map ReadResult.n rs)) hc
    exact hc'.imp (fun a b hab => quotient_mono hT hab)
  · intro q hq
    obtain ⟨s, hs, rfl⟩ := List.mem_map.mp hq
    have := hb s hs
    exact ⟨quotient_nonneg (by omega) hT, quotient_le_one hT this.2⟩
  · rw [List.getLast?_map, runningTotals_getLast _ _ hne, hsum, zero_add]
    simp [quotient_self hT]
  · intro s hs
    have := hb s hs
    exact quotient_near (by omega) hT

/-- Witness for C1: reads of 3, 4 and 3 bytes against a total of 10. -/
theorem C1_progress_reader_fractions_witness :
    (0 : Int) < 10 ∧ (10 : Int) < 2 ^ 63 ∧
      ([⟨3, none⟩, ⟨4, none⟩, ⟨3, some "EOF"⟩].map ReadResult.n).sum = 10 ∧
      ProgressReader.reads ⟨10, 0⟩ [⟨3, none⟩, ⟨4, none⟩, ⟨3, some "EOF"⟩]
        = (runningTotals 0 ([⟨3, none⟩, ⟨4, none⟩, ⟨3, some "EOF"⟩].map ReadResult.n)).map
            (fun s => clampOne (float64Div s 10)) ∧
      (ProgressReader.reads ⟨10, 0⟩ [⟨3, none⟩, ⟨4, none⟩, ⟨3, some "EOF"⟩]).length = 3 ∧
      ∃ qs : List ℚ, ProgressReader.reads ⟨10, 0⟩ [⟨3, none⟩, ⟨4, none⟩, ⟨3, some "EOF"⟩]
          = qs.map F64.fin ∧
        qs.Chain' (fun a b => a ≤ b) ∧ (∀ q ∈ qs, 0 ≤ q ∧ q ≤ 1) ∧ qs.getLast? = some 1 :=
  ⟨by decide, by decide, by decide,
    (C1_progress_reader_fractions 10 [⟨3, none⟩, ⟨4, none⟩, ⟨3, some "EOF"⟩]
      (by decide) (by decide) (by decide) (by decide)).1,
    (C1_progress_reader_fractions 10 [⟨3, none⟩, ⟨4, none⟩, ⟨3, some "EOF"⟩]
      (by decide) (by decide) (by decide) (by decide)).2.1,
    (C1_progress_reader_fractions 10 [⟨3, none⟩, ⟨4, none⟩, ⟨3, some "EOF"⟩]
      (by decide) (by decide) (by decide) (by decide)).2.2.1⟩

section ProberLemmas

theorem digitVal_le_nine {c : Char} (h : isDigit c = true) : digitVal c ≤ 9 := by
  simp only [isDigit, Bool.and_eq_true, decide_eq_true_eq] at h
  unfold digitVal
  omega

theorem ParseInt_two_digits {a b : Char} (ha : isDigit a = true) (hb : isDigit b = true) :
    ParseInt [a, b] = (((digitVal a * 10 + digitVal b : Nat) : Int), none) := by
  obtain ⟨hp, hm⟩ := isDigit_ne_sign ha
  have h1 := digitVal_le_nine ha
  have h2 := digitVal_le_nine hb
  have hlt : ¬ (2 : Nat) ^ 63 ≤ (0 * 10 + digitVal a) * 10 + digitVal b := by omega
  have h64a : ¬ (2 : Nat) ^ 64 ≤ 0 * 10 + digitVal a := by omega
  have h64b : ¬ (2 : Nat) ^ 64 ≤ (0 * 10 + digitVal a) * 10 + digitVal b := by omega
  simp only [ParseInt, hp, hm, or_self, if_false, decide_False, parseDigits, ha, hb, if_true,
    if_neg h64a, if_neg h64b, Bool.not_false, Bool.true_and, decide_eq_true_eq, if_neg hlt,
    Bool.false_and, Bool.false_eq_true, reduceCtorEq]
  simp

theorem findDuration_skip (rest : List Char) :
    ∀ pre : List Char, (∀ k, k < pre.length → matchDurationAt ((pre ++ rest).drop k) = none) →
      findDuration (pre ++ rest) = findDuration rest := by
  intro pre
  induction pre with
  | nil => intro _; rfl
  | cons c cs ih =>
    intro h
    have h0 := h 0 (by simp)
    simp only [List.drop_zero, List.cons_append] at h0
    show findDuration (c :: (cs ++ rest)) = findDuration rest
    rw [findDuration, h0]
    apply ih
    intro k hk
    have := h (k + 1) (by simpa using hk)
    simpa using this

theorem matchDurationAt_stamp (h1 h2 m1 m2 s1 s2 x c1 c2 : Char) (post : List Char)
    (hh1 : isDigit h1 = true) (hh2 : isDigit h2 = true) (hm1 : isDigit m1 = true)
    (hm2 : isDigit m2 = true) (hs1 : isDigit s1 = true) (hs2 : isDigit s2 = true)
    (hc1 : isDigit c1 = true) (hc2 : isDigit c2 = true) (hx : x ≠ '\n') :
    matchDurationAt ("Duration: ".toList ++
        ([h1, h2, ':', m1, m2, ':', s1, s2, x, c1, c2] ++ post))
      = some ([h1, h2], [m1, m2], [s1, s2], [c1, c2]) := by
  have hpre : "Duration: ".toList = ['D', 'u', 'r', 'a', 't', 'i', 'o', 'n', ':', ' '] := rfl
  simp [matchDurationAt, hasPrefix, hpre, hh1, hh2, hm1, hm2, hs1, hs2, hc1, hc2, hx]

theorem durationOfOutput_stamp (pre post : List Char) (h1 h2 m1 m2 s1 s2 x c1 c2 : Char)
    (hh1 : isDigit h1 = true) (hh2 : isDigit h2 = true) (hm1 : isDigit m1 = true)
    (hm2 : isDigit m2 = true) (hs1 : isDigit s1 = true) (hs2 : isDigit s2 = true)
    (hc1 : isDigit c1 = true) (hc2 : isDigit c2 = true) (hx : x ≠ '\n')
    (hfirst : ∀ k, k < pre.length → matchDurationAt
      ((pre ++ ("Duration: ".toList ++
        ([h1, h2, ':', m1, m2, ':', s1, s2, x, c1, c2] ++ post))).drop k) = none) :
    durationOfOutput (pre ++ ("Duration: ".toList ++
        ([h1, h2, ':', m1, m2, ':', s1, s2, x, c1, c2] ++ post)))
      = ((((digitVal h1 * 10 + digitVal h2 : Nat) : Int) * 3600
            + ((digitVal m1 * 10 + digitVal m2 : Nat) : Int) * 60
            + ((digitVal s1 * 10 + digitVal s2 : Nat) : Int)) * 1000
          + ((digitVal c1 * 10 + digitVal c2 : Nat) : Int) * 10, none) := by
  have hm := matchDurationAt_stamp h1 h2 m1 m2 s1 s2 x c1 c2 post hh1 hh2 hm1 hm2 hs1 hs2
    hc1 hc2 hx
  have hfd : findDuration ("Duration: ".toList ++
      ([h1, h2, ':', m1, m2, ':', s1, s2, x, c1, c2] ++ post))
        = some ([h1, h2], [m1, m2], [s1, s2], [c1, c2]) := by
    have key : ∀ (c : Char) (cs : List Char) (m : List Char × List Char × List Char × List Char),
        matchDurationAt (c :: cs) = some m → findDuration (c :: cs) = some m := by
      intro c cs m h
      rw [findDuration, h]
    exact key 'D' _ _ hm
  have b1 := digitVal_le_nine hh1
  have b2 := digitVal_le_nine hh2
  have b3 := digitVal_le_nine hm1
  have b4 := digitVal_le_nine hm2
  have b5 := digitVal_le_nine hs1
  have b6 := digitVal_le_nine hs2
  have b7 := digitVal_le_nine hc1
  have b8 := digitVal_le_nine hc2
  unfold durationOfOutput
  rw [findDuration_skip _ pre hfirst, hfd]
  simp only [ParseInt_two_digits hh1 hh2, ParseInt_two_digits hm1 hm2,
    ParseInt_two_digits hs1 hs2, ParseInt_two_digits hc1 hc2]
  rw [wrapInt64_of_range (by omega) (by omega)]

theorem getVideoDurationInMs_of_tool_ran (sys : Sys) (files : List String) (run : ProbeRun)
    (hpath : (getFFmpegPath sys files).2.1 = none)
    (herr : ∀ e, run.err = some e → containsStr e.toList "exit status 1".toList = true) :
    (getVideoDurationInMs sys files run).1 = (durationOfOutput run.output).1 ∧
      (getVideoDurationInMs sys files run).2.1 = (durationOfOutput run.output).2 := by
  unfold getVideoDurationInMs
  rcases hg : getFFmpegPath sys files with ⟨p, e, fs⟩
  rw [hg] at hpath
  simp only at hpath
  subst hpath
  simp only
  cases he : run.err with
  | none => exact ⟨rfl, rfl⟩
  | some e =>
    simp only [herr e he, Bool.not_true, Bool.false_eq_true, if_false, and_self]

end ProberLemmas

/-- Counterexample for C2: the captured text carries `Duration: 01:02:03.45` as its leftmost
match, but the inspect invocation ended with `exit status 2`; `getVideoDurationInMs` returns
0 and that error. -/
theorem C2_tool_error_counterexample :
    findDuration "Input #0\n  Duration: 01:02:03.45, start: 0.000000".toList
        = some ("01".toList, "02".toList, "03".toList, "45".toList) ∧
      (getVideoDurationInMs sampleSys ["/tmp/ffmpeg.exe"]
        ⟨"Input #0\n  Duration: 01:02:03.45, start: 0.000000".toList, some "exit status 2"⟩).1
          = 0 ∧
      (getVideoDurationInMs sampleSys ["/tmp/ffmpeg.exe"]
        ⟨"Input #0\n  Duration: 01:02:03.45, start: 0.000000".toList, some "exit status 2"⟩).2.1
          = some "exit status 2" := by
  decide

/-- C2 (amended): when the tool ran (its path was obtained and the inspect invocation ended
without error or with an error whose text contains `exit status 1`) and the leftmost match
of the duration pattern in the captured text has the two-digit fields H, M, S, C,
`getVideoDurationInMs` returns `((H*3600 + M*60 + S) * 1000) + C*10` and no error; a text
whose leftmost match is `Duration: 01:02:03.45` gives 3723450. -/
theorem C2_duration_in_ms :
    (∀ (sys : Sys) (files : List String) (run : ProbeRun) (pre post : List Char)
        (h1 h2 m1 m2 s1 s2 x c1 c2 : Char),
      (getFFmpegPath sys files).2.1 = none →
      (∀ e, run.err = some e → containsStr e.toList "exit status 1".toList = true) →
      run.output = pre ++ ("Duration: ".toList ++
        ([h1, h2, ':', m1, m2, ':', s1, s2, x, c1, c2] ++ post)) →
      (isDigit h1 = true ∧ isDigit h2 = true ∧ isDigit m1 = true ∧ isDigit m2 = true ∧
        isDigit s1 = true ∧ isDigit s2 = true ∧ isDigit c1 = true ∧ isDigit c2 = true) →
      x ≠ '\n' →
      (∀ k, k < pre.length → matchDurationAt (run.output.drop k) = none) →
      (getVideoDurationInMs sys files run).1
          = (((digitVal h1 * 10 + digitVal h2 : Nat) : Int) * 3600
              + ((digitVal m1 * 10 + digitVal m2 : Nat) : Int) * 60
              + ((digitVal s1 * 10 + digitVal s2 : Nat) : Int)) * 1000
            + ((digitVal c1 * 10 + digitVal c2 : Nat) : Int) * 10 ∧
        (getVideoDurationInMs sys files run).2.1 = none) ∧
    (∀ (sys : Sys) (files : List String) (run : ProbeRun) (pre post : List Char),
      (getFFmpegPath sys files).2.1 = none →
      (∀ e, run.err = some e → containsStr e.toList "exit status 1".toList = true) →
      run.output = pre ++ ("Duration: 01:02:03.45".toList ++ post) →
      (∀ k, k < pre.length → matchDurationAt (run.output.drop k) = none) →
      (getVideoDurationInMs sys files run).1 = 3723450 ∧
        (getVideoDurationInMs sys files run).2.1 = none) := by
  have general : ∀ (sys : Sys) (files : List String) (run : ProbeRun) (pre post : List Char)
        (h1 h2 m1 m2 s1 s2 x c1 c2 : Char),
      (getFFmpegPath sys files).2.1 = none →
      (∀ e, run.err = some e → containsStr e.toList "exit status 1".toList = true) →
      run.output = pre ++ ("Duration: ".toList ++
        ([h1, h2, ':', m1, m2, ':', s1, s2, x, c1, c2] ++ post)) →
      (isDigit h1 = true ∧ isDigit h2 = true ∧ isDigit m1 = true ∧ isDigit m2 = true ∧
        isDigit s1 = true ∧ isDigit s2 = true ∧ isDigit c1 = true ∧ isDigit c2 = true) →
      x ≠ '\n' →
      (∀ k, k < pre.length → matchDurationAt (run.output.drop k) = none) →
      (getVideoDurationInMs sys files run).1
          = (((digitVal h1 * 10 + digitVal h2 : Nat) : Int) * 3600
              + ((digitVal m1 * 10 + digitVal m2 : Nat) : Int) * 60
              + ((digitVal s1 * 10 + digitVal s2 : Nat) : Int)) * 1000
            + ((digitVal c1 * 10 + digitVal c2 : Nat) : Int) * 10 ∧
        (getVideoDurationInMs sys files run).2.1 = none := by
    intro sys files run pre post h1 h2 m1 m2 s1 s2 x c1 c2 hpath herr hout hd hx hfirst
    obtain ⟨d1, d2, d3, d4, d5, d6, d7, d8⟩ := hd
    obtain ⟨hv, he⟩ := getVideoDurationInMs_of_tool_ran sys files run hpath herr
    rw [hout] at hfirst
    have := durationOfOutput_stamp pre post h1 h2 m1 m2 s1 s2 x c1 c2 d1 d2 d3 d4 d5 d6 d7 d8
      hx hfirst
    rw [hv, he, hout, this]
    exact ⟨rfl, rfl⟩
  refine ⟨general, ?_⟩
  intro sys files run pre post hpath herr hout hfirst
  have := general sys files run pre post '0' '1' '0' '2' '0' '3' '.' '4' '5' hpath herr
    (by rw [hout]; rfl) (by decide) (by decide) hfirst
  simpa [digitVal] using this

/-- Witness for C2: the text of an inspect run whose only duration is `01:02:03.45`. -/
theorem C2_duration_in_ms_witness :
    (getVideoDurationInMs sampleSys [] ⟨"#0\n  Duration: 01:02:03.45, start: 0.0".toList,
        some "exit status 1"⟩).1 = 3723450 ∧
      (getVideoDurationInMs sampleSys [] ⟨"#0\n  Duration: 01:02:03.45, start: 0.0".toList,
        some "exit status 1"⟩).2.1 = none :=
  C2_duration_in_ms.2 sampleSys []
    ⟨"#0\n  Duration: 01:02:03.45, start: 0.0".toList, some "exit status 1"⟩
    "#0\n  ".toList ", start: 0.0".toList (by decide)
    (by intro e he; injection he with he; subst he; decide) (by decide)
    (by intro k hk; have hk5 : k < 5 := hk; interval_cases k <;> decide)

section MergerLemmas

theorem roundNearestEven_natCast (n : ℕ) (h : n < 2 ^ 53) : roundNearestEven (n : ℚ) = n := by
  rcases Nat.eq_zero_or_pos n with h0 | hpos
  · subst h0; simp [roundNearestEven]
  · have hq : (0 : ℚ) < n := by exact_mod_cast hpos
    unfold roundNearestEven
    rw [if_neg hq.ne', if_pos hq]
    have hlog : Nat.log 2 n < 53 := Nat.log_lt_of_lt_pow hpos.ne' h
    apply roundPos_exact ((n * 2 ^ (52 - Nat.log 2 n) : ℕ) : ℤ)
    rw [Int.log_natCast]
    have : (52 : ℤ) - (Nat.log 2 n : ℤ) = ((52 - Nat.log 2 n : ℕ) : ℤ) := by omega
    rw [this, zpow_natCast]
    push_cast
    ring

theorem clampOne_float64Div (n : Int) {D : Int} (hD : 0 < D) :
    clampOne (float64Div n D) = F64.fin (min 1 (quotient n D)) := by
  rw [float64Div_of_pos n hD]
  rcases le_or_lt (quotient n D) 1 with h | h
  · rw [clampOne_fin_of_le h, min_eq_right h]
  · rw [clampOne_fin_of_gt h, min_eq_left h.le]

theorem quotient_half : quotient 500000 1000000 = 1 / 2 := by
  have h1 := roundNearestEven_natCast 500000 (by norm_num)
  have h2 := roundNearestEven_natCast 1000000 (by norm_num)
  unfold quotient
  push_cast at h1 h2 ⊢
  rw [h1, h2]
  have : (500000 : ℚ) / 1000000 = 1 / 2 := by norm_num
  rw [this, roundNearestEven_half]

theorem quotient_two : quotient 2000000 1000000 = 2 := by
  have h1 := roundNearestEven_natCast 2000000 (by norm_num)
  have h2 := roundNearestEven_natCast 1000000 (by norm_num)
  have h3 := roundNearestEven_natCast 2 (by norm_num)
  unfold quotient
  push_cast at h1 h2 h3 ⊢
  rw [h1, h2]
  have : (2000000 : ℚ) / 1000000 = 2 := by norm_num
  rw [this, h3]

theorem hasPrefix_append (pre s : List Char) : hasPrefix (pre ++ s) pre = true := by
  simp [hasPrefix]

theorem trimPrefix_append (pre s : List Char) : trimPrefix (pre ++ s) pre = s := by
  simp [trimPrefix, hasPrefix]

theorem progressOfLine_of_parse {D n : Int} {s : List Char} (hD : 0 < D)
    (hs : ParseInt s = (n, none)) :
    progressOfLine D ("out_time_ms=".toList ++ s) = [F64.fin (min 1 (quotient n D))] := by
  unfold progressOfLine
  rw [hasPrefix_append, trimPrefix_append, hs]
  simp only [if_true, gt_iff_lt, if_pos hD, clampOne_float64Div n hD]

/-- The total duration the scanner loop of `mergeVideoAndAudio` works with. -/
theorem mergeVideoAndAudio_progress (sys : Sys) (files : List String) (run : MergeRun)
    (a b c d : String) (h1 : run.stdoutPipeErr = none) (h2 : run.startErr = none) :
    (mergeVideoAndAudio sys files run a b c d).progress
      = run.lines.flatMap (progressOfLine (totalDurationOf sys files run.probe)) := by
  unfold mergeVideoAndAudio totalDurationOf
  rw [h1, h2]
  cases run.waitErr <;> rfl

end MergerLemmas

/-- C3: with a known total duration `D > 0`, a line `out_time_ms=<n>` for an integer `n`
that `ParseInt` reads (the decimal text of every 64-bit integer is read) forwards exactly
`min(1.0, float64(n)/float64(D))`: `0.5` for `n = 500000`, `D = 1000000` and `1.0` for
`n = 2000000`, `D = 1000000`.  A line without the prefix, a line whose integer does not
parse, and any line when `D <= 0` forward nothing; the lines never change the error that
`mergeVideoAndAudio` returns, and the values it forwards are those of its lines in order.
The total duration is the probed one, or `0` when the probe failed, and the float quotient
is within the fraction `2^-51` of the exact ratio. -/
theorem C3_out_time_progress :
    (∀ (D n : Int) (s : List Char), 0 < D → ParseInt s = (n, none) →
      progressOfLine D ("out_time_ms=".toList ++ s) = [F64.fin (min 1 (quotient n D))]) ∧
    (∀ (D n : Int), 0 < D → -(2 ^ 63) ≤ n → n < 2 ^ 63 →
      progressOfLine D ("out_time_ms=".toList ++ formatInt n)
        = [F64.fin (min 1 (quotient n D))]) ∧
    progressOfLine 1000000 "out_time_ms=500000".toList = [F64.fin (1 / 2)] ∧
    progressOfLine 1000000 "out_time_ms=2000000".toList = [F64.fin 1] ∧
    (∀ (D : Int) (line : List Char), hasPrefix line "out_time_ms=".toList = false →
      progressOfLine D line = []) ∧
    (∀ (D : Int) (line : List Char) (e : String),
      (ParseInt (trimPrefix line "out_time_ms=".toList)).2 = some e →
      progressOfLine D line = []) ∧
    (∀ (D : Int) (line : List Char), D ≤ 0 → progressOfLine D line = []) ∧
    (∀ (sys : Sys) (files : List String) (run : MergeRun) (lines : List (List Char))
        (a b c d : String),
      (mergeVideoAndAudio sys files { run with lines := lines } a b c d).err
        = (mergeVideoAndAudio sys files run a b c d).err) ∧
    (∀ (sys : Sys) (files : List String) (run : MergeRun) (a b c d : String),
      run.stdoutPipeErr = none → run.startErr = none →
      (mergeVideoAndAudio sys files run a b c d).progress
        = run.lines.flatMap (progressOfLine (totalDurationOf sys files run.probe))) ∧
    (∀ (sys : Sys) (files : List String) (probe : ProbeRun),
      (getVideoDurationInMs sys files probe).2.1 = none →
      totalDurationOf sys files probe = (getVideoDurationInMs sys files probe).1) ∧
    (∀ (sys : Sys) (files : List String) (probe : ProbeRun) (e : String),
      (getVideoDurationInMs sys files probe).2.1 = some e →
      totalDurationOf sys files probe = 0) ∧
    (∀ (D n : Int), 0 < D → 0 ≤ n →
      (n : ℚ) / D * (1 - 1 / 2 ^ 51) ≤ quotient n D ∧
        quotient n D ≤ (n : ℚ) / D * (1 + 1 / 2 ^ 51)) := by
  refine ⟨?_, ?_, ?_, ?_, ?_, ?_, ?_, ?_, ?_, ?_, ?_, ?_⟩
  · intro D n s hD hs
    exact progressOfLine_of_parse hD hs
  · intro D n hD h0 h1
    exact progressOfLine_of_parse hD (ParseInt_formatInt n h0 h1)
  · have h : ParseInt "500000".toList = (500000, none) := by decide
    have := progressOfLine_of_parse (D := 1000000) (by norm_num) h
    rw [quotient_half] at this
    rw [show "out_time_ms=500000".toList = "out_time_ms=".toList ++ "500000".toList from rfl,
      this]
    norm_num
  · have h : ParseInt "2000000".toList = (2000000, none) := by decide
    have := progressOfLine_of_parse (D := 1000000) (by norm_num) h
    rw [quotient_two] at this
    rw [show "out_time_ms=2000000".toList = "out_time_ms=".toList ++ "2000000".toList from rfl,
      this]
    norm_num
  · intro D line h
    unfold progressOfLine
    rw [h]; rfl
  · intro D line e h
    rcases hp : ParseInt (trimPrefix line "out_time_ms=".toList) with ⟨v, err⟩
    rw [hp] at h
    simp only at h
    subst h
    unfold progressOfLine
    rw [hp]
    simp only [ite_self]
  · intro D line hD
    have hD' : ¬ D > 0 := not_lt.mpr hD
    unfold progressOfLine
    rcases ParseInt (trimPrefix line "out_time_ms=".toList) with ⟨v, _ | err⟩
    · simp only [if_neg hD', ite_self]
    · simp only [ite_self]
  · intro sys files run lines a b c d
    unfold mergeVideoAndAudio
    simp only
    cases run.stdoutPipeErr <;> cases run.startErr <;> cases run.waitErr <;> rfl
  · intro sys files run a b c d h1 h2
    exact mergeVideoAndAudio_progress sys files run a b c d h1 h2
  · intro sys files probe h
    unfold totalDurationOf
    rw [h]
  · intro sys files probe e h
    unfold totalDurationOf
    rw [h]
  · intro D n hD hn
    exact quotient_near hn hD

/-- Witness for C3: the line `out_time_ms=250` against a total of 1000 ms. -/
theorem C3_out_time_progress_witness :
    (0 : Int) < 1000 ∧ ParseInt "250".toList = (250, none) ∧
      progressOfLine 1000 ("out_time_ms=".toList ++ "250".toList)
        = [F64.fin (min 1 (quotient 250 1000))] :=
  ⟨by decide, by decide, C3_out_time_progress.1 1000 250 "250".toList (by decide) (by decide)⟩

section NamingLemmas

theorem splitOn_ne_nil (sep : Char) (s : List Char) : splitOn sep s ≠ [] := by
  cases s with
  | nil => simp [splitOn]
  | cons c cs =>
    unfold splitOn
    split_ifs
    · simp
    · cases splitOn sep cs <;> simp

theorem splitOn_head (sep : Char) (s : List Char) :
    (splitOn sep s).headD [] = s.takeWhile (fun c => c ≠ sep) := by
  induction s with
  | nil => rfl
  | cons c cs ih =>
    unfold splitOn
    by_cases h : c = sep
    · simp [h]
    · rw [if_neg h]
      cases hs : splitOn sep cs with
      | nil => exact absurd hs (splitOn_ne_nil sep cs)
      | cons seg segs =>
        rw [hs] at ih
        simp only [List.headD_cons] at ih
        show c :: seg = _
        rw [List.takeWhile_cons, ← ih]
        simp [h]

theorem splitOn_last (sep : Char) (s : List Char) :
    ∃ pre seg, s = pre ++ seg ∧ sep ∉ seg ∧ (pre = [] ∨ pre.getLast? = some sep) ∧
      (splitOn sep s).getLastD [] = seg ∧ (pre = [] → splitOn sep s = [seg]) ∧
      (pre ≠ [] → ∃ x y l, splitOn sep s = x :: y :: l) := by
  induction s with
  | nil => exact ⟨[], [], rfl, by simp, Or.inl rfl, rfl, fun _ => rfl, fun h => absurd rfl h⟩
  | cons c cs ih =>
    obtain ⟨pre, seg, hcs, hno, hpre, hlast, hone, htwo⟩ := ih
    by_cases h : c = sep
    · refine ⟨c :: pre, seg, by rw [hcs]; rfl, hno, Or.inr ?_, ?_, fun hp => by simp at hp, ?_⟩
      · rcases hpre with hp | hp
        · rw [hp, h]; rfl
        · cases pre with
          | nil => simp at hp
          | cons p ps => rw [List.getLast?_cons_cons]; exact hp
      · unfold splitOn
        rw [if_pos h]
        cases hs : splitOn sep cs with
        | nil => exact absurd hs (splitOn_ne_nil sep cs)
        | cons x xs =>
          rw [hs] at hlast
          simpa using hlast
      · intro _
        unfold splitOn
        rw [if_pos h]
        cases hs : splitOn sep cs with
        | nil => exact absurd hs (splitOn_ne_nil sep cs)
        | cons x xs => exact ⟨[], x, xs, rfl⟩
    · by_cases hp : pre = []
      · have hsplit := hone hp
        subst hp
        simp only [List.nil_append] at hcs
        subst hcs
        refine ⟨[], c :: cs, rfl, ?_, Or.inl rfl, ?_, ?_, fun hne => absurd rfl hne⟩
        · simp only [List.mem_cons, not_or]
          exact ⟨fun e => h e.symm, hno⟩
        · unfold splitOn
          rw [if_neg h, hsplit]; rfl
        · intro _
          unfold splitOn
          rw [if_neg h, hsplit]
      · obtain ⟨x, y, l, hxy⟩ := htwo hp
        refine ⟨c :: pre, seg, by rw [hcs]; rfl, hno, Or.inr ?_, ?_, fun hp' => by simp at hp',
          fun _ => ?_⟩
        · rcases hpre with hp' | hp'
          · exact absurd hp' hp
          · cases pre with
            | nil => exact absurd rfl hp
            | cons p ps => rw [List.getLast?_cons_cons]; exact hp'
        · unfold splitOn
          rw [if_neg h, hxy]
          rw [hxy] at hlast
          simpa using hlast
        · unfold splitOn
          rw [if_neg h, hxy]
          exact ⟨c :: x, y, l, rfl⟩

theorem deriveFileNameFromURL_eq (parse : List Char → Option (List Char))
    (urlStr path : List Char) (h : parse urlStr = some path) :
    deriveFileNameFromURL parse urlStr
      = if hasSuffix ((splitOn '?' ((splitOn '/' path).getLastD [])).headD []) ".mp4".toList
          = true
        then (splitOn '?' ((splitOn '/' path).getLastD [])).headD []
        else (splitOn '?' ((splitOn '/' path).getLastD [])).headD [] ++ ".mp4".toList := by
  have hlen : (splitOn '/' path).length > 0 :=
    List.length_pos.mpr (splitOn_ne_nil '/' path)
  unfold deriveFileNameFromURL
  rw [h]
  simp only [if_pos hlen]
  cases hasSuffix ((splitOn '?' ((splitOn '/' path).getLastD [])).headD []) ".mp4".toList <;> rfl

theorem hasSuffix_append_self (s suf : List Char) : hasSuffix (s ++ suf) suf = true := by
  unfold hasSuffix
  rw [List.isSuffixOf_iff_suffix]
  exact List.suffix_append s suf

end NamingLemmas

/-- C4: for a URL that parses with path `p`, `deriveFileNameFromURL` returns the part of
`p` after its last `/`, cut before its first `?`, and appends `.mp4` exactly when that text
does not already end in `.mp4`; the result always ends in `.mp4`.  For
`https://host/path/clip.webm?x=1`, whose path is `/path/clip.webm`, it is `clip.webm.mp4`. -/
theorem C4_derived_file_name :
    (∀ (parse : List Char → Option (List Char)) (urlStr path : List Char),
      parse urlStr = some path →
      ∃ pre seg base rest : List Char,
        path = pre ++ seg ∧ '/' ∉ seg ∧ (pre = [] ∨ pre.getLast? = some '/') ∧
        seg = base ++ rest ∧ '?' ∉ base ∧ (rest = [] ∨ rest.head? = some '?') ∧
        deriveFileNameFromURL parse urlStr
          = (if hasSuffix base ".mp4".toList = true then base else base ++ ".mp4".toList) ∧
        hasSuffix (deriveFileNameFromURL parse urlStr) ".mp4".toList = true) ∧
    (∀ (parse : List Char → Option (List Char)),
      parse "https://host/path/clip.webm?x=1".toList = some "/path/clip.webm".toList →
      deriveFileNameFromURL parse "https://host/path/clip.webm?x=1".toList
        = "clip.webm.mp4".toList) := by
  constructor
  · intro parse urlStr path h
    obtain ⟨pre, seg, hpath, hno, hpre, hlast, -, -⟩ := splitOn_last '/' path
    have heq := deriveFileNameFromURL_eq parse urlStr path h
    rw [hlast, splitOn_head] at heq
    refine ⟨pre, seg, seg.takeWhile (fun c => c ≠ '?'), seg.dropWhile (fun c => c ≠ '?'),
      hpath, hno, hpre, (List.takeWhile_append_dropWhile _ _).symm, ?_, ?_, heq, ?_⟩
    · intro hmem
      have := List.mem_takeWhile_imp hmem
      simp at this
    · cases hd : seg.dropWhile (fun c => c ≠ '?') with
      | nil => exact Or.inl rfl
      | cons d ds =>
        right
        have := List.head?_dropWhile_not (fun c => decide (c ≠ '?')) seg
        rw [hd] at this
        simp only [List.head?_cons] at this
        have hdq : d = '?' := by simpa using this
        rw [hdq]; rfl
    · rw [heq]
      split_ifs with hs
      · exact hs
      · exact hasSuffix_append_self _ _
  · intro parse h
    rw [deriveFileNameFromURL_eq parse _ _ h]
    decide

/-- Witness for C4: the sample parser on `https://host/path/clip.webm?x=1`. -/
theorem C4_derived_file_name_witness :
    samplePathParser "https://host/path/clip.webm?x=1".toList = some "/path/clip.webm".toList ∧
      deriveFileNameFromURL samplePathParser "https://host/path/clip.webm?x=1".toList
        = "clip.webm.mp4".toList :=
  ⟨by decide, C4_derived_file_name.2 samplePathParser (by decide)⟩


/-- C5: in a run of the Start handler, when a stage (video download, audio download, tool
materialisation, merge) returns an error, no later stage is called and no `os.Remove` is
executed; when the video download fails, neither the audio download nor the merge is
called. -/
theorem C5_failure_stops_the_run (env : RunEnv) (inp : Inputs) (files : List String)
    (s : Stage) (err : String) :
    Event.ret s (some err) ∈ (startHandler env inp files).trace →
    (∀ (s' : Stage) (args : List String), s.rank < s'.rank →
        Event.call s' args ∉ (startHandler env inp files).trace) ∧
      (∀ path : String, Event.remove path ∉ (startHandler env inp files).trace) ∧
      (s = Stage.videoDownload → ∀ args : List String,
        Event.call Stage.audioDownload args ∉ (startHandler env inp files).trace ∧
        Event.call Stage.merge args ∉ (startHandler env inp files).trace) := by
  intro hfail
  simp only [startHandler] at hfail ⊢
  split_ifs at hfail ⊢ with h1 h2
  · simp at hfail
  · simp at hfail
  · generalize downloadFile files (env.sys.join inp.destDirPath "video.mp4") env.video = v
      at hfail ⊢
    generalize downloadFile v.files (env.sys.join inp.destDirPath "audio.mp4") env.audio = a
      at hfail ⊢
    generalize getFFmpegPath env.sys a.files = f at hfail ⊢
    generalize mergeVideoAndAudio env.sys f.2.2 env.merge f.1
      (env.sys.join inp.destDirPath "video.mp4") (env.sys.join inp.destDirPath "audio.mp4")
      (env.sys.join inp.destDirPath inp.outputFileNameText) = m at hfail ⊢
    rcases hv : v.err with _ | e1
    · rcases ha : a.err with _ | e2
      · rcases hf : f.2.1 with _ | e3
        · rcases hm : m.err with _ | e4
          · simp [hv, ha, hf, hm] at hfail
          · simp only [hv, ha, hf, hm] at hfail ⊢
            simp at hfail
            obtain ⟨rfl, rfl⟩ := hfail
            simp [Stage.rank]
            intro s' _ hs'
            cases s' <;> simp [Stage.rank] at hs' ⊢
        · simp only [hv, ha, hf] at hfail ⊢
          simp at hfail
          obtain ⟨rfl, rfl⟩ := hfail
          simp [Stage.rank]
          intro s' _ hs'
          cases s' <;> simp [Stage.rank] at hs' ⊢
      · simp only [hv, ha] at hfail ⊢
        simp at hfail
        obtain ⟨rfl, rfl⟩ := hfail
        simp [Stage.rank]
        intro s' _ hs'
        cases s' <;> simp [Stage.rank] at hs' ⊢
    · simp only [hv] at hfail ⊢
      simp at hfail
      obtain ⟨rfl, rfl⟩ := hfail
      simp [Stage.rank]
      intro s' _ hs'
      cases s' <;> simp [Stage.rank] at hs' ⊢

/-- Witness for C5: a run whose video download is answered with status 404. -/
theorem C5_failure_stops_the_run_witness :
    Event.ret Stage.videoDownload (some "bad status: 404 Not Found") ∈
        (startHandler videoFailsEnv sampleInputs []).trace ∧
      ((∀ (s' : Stage) (args : List String), Stage.videoDownload.rank < s'.rank →
        Event.call s' args ∉ (startHandler videoFailsEnv sampleInputs []).trace) ∧
      (∀ path : String, Event.remove path ∉ (startHandler videoFailsEnv sampleInputs []).trace) ∧
      (Stage.videoDownload = Stage.videoDownload → ∀ args : List String,
        Event.call Stage.audioDownload args ∉ (startHandler videoFailsEnv sampleInputs []).trace ∧
        Event.call Stage.merge args ∉ (startHandler videoFailsEnv sampleInputs []).trace)) :=
  ⟨by decide, C5_failure_stops_the_run videoFailsEnv sampleInputs [] Stage.videoDownload
    "bad status: 404 Not Found" (by decide)⟩

/-- C6: the run at the failing input.  With the output name `video.mp4` the final path is
the path of the temporary video file; both downloads and the merge return success, the merge
was called with that path as its output, and the run then ends with `os.Remove` on that same
path, the two other removals, and the line that announces the final video at the path just
removed. -/
theorem C6_cleanup_removes_announced_output :
    clashingInputs.outputFileNameText ≠ "" ∧
      sampleEnv.sys.join clashingInputs.destDirPath clashingInputs.outputFileNameText
        = sampleEnv.sys.join clashingInputs.destDirPath "video.mp4" ∧
      Event.ret Stage.videoDownload none ∈ (startHandler sampleEnv clashingInputs []).trace ∧
      Event.ret Stage.audioDownload none ∈ (startHandler sampleEnv clashingInputs []).trace ∧
      Event.call Stage.merge ["/tmp/ffmpeg.exe", "d/video.mp4", "d/audio.mp4", "d/video.mp4"]
        ∈ (startHandler sampleEnv clashingInputs []).trace ∧
      Event.ret Stage.merge none ∈ (startHandler sampleEnv clashingInputs []).trace ∧
      [Event.remove "d/video.mp4", Event.remove "d/audio.mp4", Event.remove "/tmp/ffmpeg.exe",
        Event.output "Process completed. The final video is located at d/video.mp4"].isSuffixOf
          (startHandler sampleEnv clashingInputs []).trace = true := by
  decide

/-- C7: when the GET is answered with a status outside 200..299, `downloadFile` returns the
error `bad status: <Status>`; `Status` is the status line of the response, written by
`net/http` as the code followed by the reason text, so the error carries the code.  It
makes exactly one GET, constructs no `ProgressReader`, writes no byte of the body and
reports no progress. -/
theorem C7_bad_status_is_terminal (files : List String) (filepath : String)
    (run : DownloadRun) (resp : HttpResponse)
    (hcreate : run.createErr = none) (hget : run.get = .ok resp)
    (hstatus : ¬ (200 ≤ resp.StatusCode ∧ resp.StatusCode ≤ 299)) :
    (downloadFile files filepath run).err = some ("bad status: " ++ resp.Status) ∧
      (downloadFile files filepath run).gets = 1 ∧
      (downloadFile files filepath run).readerBuilt = false ∧
      (downloadFile files filepath run).written = 0 ∧
      (downloadFile files filepath run).progress = [] ∧
      (∀ text : String, resp.Status = String.mk (formatInt resp.StatusCode) ++ " " ++ text →
        (downloadFile files filepath run).err
          = some ("bad status: " ++ (String.mk (formatInt resp.StatusCode) ++ " " ++ text))) := by
  have hne : resp.StatusCode ≠ 200 := by omega
  unfold downloadFile
  rw [hcreate, hget]
  simp only [if_pos hne, true_and]
  intro text htext
  rw [htext]

/-- Witness for C7: a response `404 Not Found`. -/
theorem C7_bad_status_is_terminal_witness :
    ¬ ((200 : Int) ≤ 404 ∧ (404 : Int) ≤ 299) ∧
      (downloadFile [] "d/video.mp4" notFoundDownload).err = some "bad status: 404 Not Found" ∧
      (downloadFile [] "d/video.mp4" notFoundDownload).gets = 1 ∧
      (downloadFile [] "d/video.mp4" notFoundDownload).written = 0 :=
  ⟨by decide,
    (C7_bad_status_is_terminal [] "d/video.mp4" notFoundDownload
      ⟨404, "404 Not Found", 9, [⟨9, none⟩, ⟨0, some "EOF"⟩]⟩ rfl rfl (by decide)).1,
    (C7_bad_status_is_terminal [] "d/video.mp4" notFoundDownload
      ⟨404, "404 Not Found", 9, [⟨9, none⟩, ⟨0, some "EOF"⟩]⟩ rfl rfl (by decide)).2.1,
    (C7_bad_status_is_terminal [] "d/video.mp4" notFoundDownload
      ⟨404, "404 Not Found", 9, [⟨9, none⟩, ⟨0, some "EOF"⟩]⟩ rfl rfl (by decide)).2.2.2.1⟩

/-- Counterexample for C8: a response `204 No Content` announces no length, yet the error is
the bad-status error, not the size-unknown error. -/
theorem C8_size_unknown_counterexample :
    (200 : Int) ≤ 204 ∧ (204 : Int) ≤ 299 ∧ (0 : Int) ≤ 0 ∧
      (downloadFile [] "d/video.mp4" ⟨none, .ok ⟨204, "204 No Content", 0, []⟩⟩).err
        = some "bad status: 204 No Content" ∧
      (downloadFile [] "d/video.mp4" ⟨none, .ok ⟨204, "204 No Content", 0, []⟩⟩).err
        ≠ some "unable to determine file size" := by
  decide

/-- C8 (amended): when the GET is answered with a status in 200..299 and a content length
that is not strictly positive, `downloadFile` fails: with `unable to determine file size`
when the status is 200, with the bad-status error for any other status.  It never returns
success, constructs no `ProgressReader`, copies no byte and reports no progress. -/
theorem C8_size_unknown_is_terminal (files : List String) (filepath : String)
    (run : DownloadRun) (resp : HttpResponse)
    (hcreate : run.createErr = none) (hget : run.get = .ok resp)
    (_hstatus : 200 ≤ resp.StatusCode ∧ resp.StatusCode ≤ 299)
    (hlen : resp.ContentLength ≤ 0) :
    (resp.StatusCode = 200 →
        (downloadFile files filepath run).err = some "unable to determine file size") ∧
      (resp.StatusCode ≠ 200 →
        (downloadFile files filepath run).err = some ("bad status: " ++ resp.Status)) ∧
      (downloadFile files filepath run).err ≠ none ∧
      (downloadFile files filepath run).readerBuilt = false ∧
      (downloadFile files filepath run).written = 0 ∧
      (downloadFile files filepath run).progress = [] := by
  unfold downloadFile
  rw [hcreate, hget]
  by_cases h : resp.StatusCode = 200
  · simp [h, hlen]
  · simp [h]

/-- Witness for C8: a response `200 OK` whose content length is reported as `-1`. -/
theorem C8_size_unknown_is_terminal_witness :
    ((200 : Int) = 200 →
        (downloadFile [] "d/video.mp4" ⟨none, .ok ⟨200, "200 OK", -1, [⟨5, none⟩]⟩⟩).err
          = some "unable to determine file size") ∧
      ((200 : Int) ≠ 200 →
        (downloadFile [] "d/video.mp4" ⟨none, .ok ⟨200, "200 OK", -1, [⟨5, none⟩]⟩⟩).err
          = some ("bad status: " ++ "200 OK")) ∧
      (downloadFile [] "d/video.mp4" ⟨none, .ok ⟨200, "200 OK", -1, [⟨5, none⟩]⟩⟩).err ≠ none ∧
      (downloadFile [] "d/video.mp4" ⟨none, .ok ⟨200, "200 OK", -1, [⟨5, none⟩]⟩⟩).readerBuilt
        = false ∧
      (downloadFile [] "d/video.mp4" ⟨none, .ok ⟨200, "200 OK", -1, [⟨5, none⟩]⟩⟩).written = 0 ∧
      (downloadFile [] "d/video.mp4" ⟨none, .ok ⟨200, "200 OK", -1, [⟨5, none⟩]⟩⟩).progress = [] :=
  C8_size_unknown_is_terminal [] "d/video.mp4" ⟨none, .ok ⟨200, "200 OK", -1, [⟨5, none⟩]⟩⟩
    ⟨200, "200 OK", -1, [⟨5, none⟩]⟩ rfl rfl (by decide) (by decide)

section ProbeFailureLemmas

theorem totalDurationOf_of_error (sys : Sys) (files : List String) (probe : ProbeRun)
    (e : String) (h : (getVideoDurationInMs sys files probe).2.1 = some e) :
    totalDurationOf sys files probe = 0 := by
  unfold totalDurationOf
  rw [h]

theorem progressOfLine_zero (line : List Char) : progressOfLine 0 line = [] := by
  unfold progressOfLine
  rcases ParseInt (trimPrefix line "out_time_ms=".toList) with ⟨v, _ | err⟩
  · simp
  · simp

theorem flatMap_progressOfLine_zero (lines : List (List Char)) :
    lines.flatMap (progressOfLine 0) = [] := by
  induction lines with
  | nil => rfl
  | cons l ls ih => simp [List.flatMap_cons, progressOfLine_zero, ih]

end ProbeFailureLemmas

/-- Counterexample for C9: the captured text carries no duration, so the probe fails with
`unable to parse duration`; `mergeVideoAndAudio` still returns success and the run goes on
to the cleanup and to the completion line. -/
theorem C9_probe_failure_counterexample :
    (getVideoDurationInMs sampleSys ["/tmp/ffmpeg.exe"] failedProbe).2.1
        = some "unable to parse duration" ∧
      (mergeVideoAndAudio sampleSys ["/tmp/ffmpeg.exe"] unprobedMerge "/tmp/ffmpeg.exe"
        "d/video.mp4" "d/audio.mp4" "d/out.mp4").err = none ∧
      Event.ret Stage.merge none ∈ (startHandler probeFailsEnv sampleInputs []).trace ∧
      Event.remove "d/video.mp4" ∈ (startHandler probeFailsEnv sampleInputs []).trace ∧
      Event.remove "d/audio.mp4" ∈ (startHandler probeFailsEnv sampleInputs []).trace ∧
      Event.output "Process completed. The final video is located at d/out.mp4"
        ∈ (startHandler probeFailsEnv sampleInputs []).trace := by
  decide

/-- C9 (amended): when the duration probe fails inside a started merge,
`mergeVideoAndAudio` prints a warning and goes on with a total duration of 0: it forwards
no progress value, and its result is that of the tool process alone (success when
`cmd.Wait` succeeds, `ffmpeg error: ...` otherwise).  A run whose merge returns success goes
on to the three removals and to the completion line. -/
theorem C9_probe_failure_is_a_warning :
    (∀ (sys : Sys) (files : List String) (run : MergeRun) (a b c d e : String),
      run.stdoutPipeErr = none → run.startErr = none →
      (getVideoDurationInMs sys files run.probe).2.1 = some e →
      (mergeVideoAndAudio sys files run a b c d).printed
          = ["Warning: Unable to get video duration: " ++ e ++ "\n"] ∧
        (mergeVideoAndAudio sys files run a b c d).progress = [] ∧
        (mergeVideoAndAudio sys files run a b c d).err
          = run.waitErr.map (fun w => "ffmpeg error: " ++ w)) ∧
    (∀ (env : RunEnv) (inp : Inputs) (files : List String),
      Event.ret Stage.merge none ∈ (startHandler env inp files).trace →
      Event.remove (env.sys.join inp.destDirPath "video.mp4")
          ∈ (startHandler env inp files).trace ∧
        Event.remove (env.sys.join inp.destDirPath "audio.mp4")
          ∈ (startHandler env inp files).trace ∧
        Event.output ("Process completed. The final video is located at " ++
          env.sys.join inp.destDirPath inp.outputFileNameText)
          ∈ (startHandler env inp files).trace) := by
  constructor
  · intro sys files run a b c d e h1 h2 hp
    have hprog := mergeVideoAndAudio_progress sys files run a b c d h1 h2
    rw [totalDurationOf_of_error sys files run.probe e hp, flatMap_progressOfLine_zero] at hprog
    refine ⟨?_, hprog, ?_⟩
    · unfold mergeVideoAndAudio
      rw [h1, h2]
      simp only [hp]
      cases run.waitErr <;> rfl
    · unfold mergeVideoAndAudio
      rw [h1, h2]
      cases run.waitErr <;> rfl
  · intro env inp files hmerge
    simp only [startHandler] at hmerge ⊢
    split_ifs at hmerge ⊢ with h1 h2
    · simp at hmerge
    · simp at hmerge
    · generalize downloadFile files (env.sys.join inp.destDirPath "video.mp4") env.video = v
        at hmerge ⊢
      generalize downloadFile v.files (env.sys.join inp.destDirPath "audio.mp4") env.audio = a
        at hmerge ⊢
      generalize getFFmpegPath env.sys a.files = f at hmerge ⊢
      generalize mergeVideoAndAudio env.sys f.2.2 env.merge f.1
        (env.sys.join inp.destDirPath "video.mp4") (env.sys.join inp.destDirPath "audio.mp4")
        (env.sys.join inp.destDirPath inp.outputFileNameText) = m at hmerge ⊢
      rcases hve : v.err with _ | e1
      · rcases hae : a.err with _ | e2
        · rcases hfe : f.2.1 with _ | e3
          · rcases hme : m.err with _ | e4
            · simp [hve, hae, hfe, hme]
            · simp [hve, hae, hfe, hme] at hmerge
          · simp [hve, hae, hfe] at hmerge
        · simp [hve, hae] at hmerge
      · simp [hve] at hmerge

/-- Witness for C9: the merge of the sample run whose probe finds no duration. -/
theorem C9_probe_failure_is_a_warning_witness :
    (getVideoDurationInMs sampleSys ["/tmp/ffmpeg.exe"] unprobedMerge.probe).2.1
        = some "unable to parse duration" ∧
      (mergeVideoAndAudio sampleSys ["/tmp/ffmpeg.exe"] unprobedMerge "/tmp/ffmpeg.exe"
        "d/video.mp4" "d/audio.mp4" "d/out.mp4").progress = [] :=
  ⟨by decide,
    (C9_probe_failure_is_a_warning.1 sampleSys ["/tmp/ffmpeg.exe"] unprobedMerge
      "/tmp/ffmpeg.exe" "d/video.mp4" "d/audio.mp4" "d/out.mp4" "unable to parse duration"
      rfl rfl (by decide)).2.1⟩

section BoundLemmas

theorem roundNearestEven_neg_eq (x : ℚ) : roundNearestEven (-x) = -roundNearestEven x := by
  rcases lt_trichotomy x 0 with h | h | h
  · have h' : 0 < -x := neg_pos.mpr h
    unfold roundNearestEven
    rw [if_neg h'.ne', if_pos h', if_neg h.ne, if_neg (not_lt.mpr h.le)]
    simp
  · subst h; simp [roundNearestEven]
  · have h' : -x < 0 := neg_neg_of_pos h
    unfold roundNearestEven
    rw [if_neg h'.ne, if_neg (not_lt.mpr h'.le), if_neg h.ne', if_pos h]
    simp

theorem quotient_neg_half : quotient (-5000) 10000 = -(1 / 2) := by
  have h1 := roundNearestEven_natCast 5000 (by norm_num)
  have h2 := roundNearestEven_natCast 10000 (by norm_num)
  unfold quotient
  push_cast at h1 h2 ⊢
  rw [roundNearestEven_neg_eq, h1, h2]
  have : -(5000 : ℚ) / 10000 = -(1 / 2) := by norm_num
  rw [this, roundNearestEven_neg_eq, roundNearestEven_half]

theorem progressOfLine_mem {D : Int} {line : List Char} {v : F64}
    (hv : v ∈ progressOfLine D line) :
    ∃ (n : Int) (q : ℚ), ParseInt (trimPrefix line "out_time_ms=".toList) = (n, none) ∧
      0 < D ∧ v = F64.fin q ∧ q = min 1 (quotient n D) := by
  unfold progressOfLine at hv
  rcases hp : ParseInt (trimPrefix line "out_time_ms=".toList) with ⟨n, _ | err⟩
  · rw [hp] at hv
    by_cases hD : D > 0
    · simp only [if_pos hD] at hv
      split_ifs at hv
      · rw [List.mem_singleton] at hv
        exact ⟨n, min 1 (quotient n D), rfl, hD, by rw [hv, clampOne_float64Div n hD], rfl⟩
      · simp at hv
    · simp [hD] at hv
  · rw [hp] at hv
    simp at hv

end BoundLemmas

/-- Counterexample for C10: with a probed duration of 10000 ms the line
`out_time_ms=-5000` makes `mergeVideoAndAudio` pass `-0.5` to the progress bar. -/
theorem C10_negative_fraction_counterexample :
    (mergeVideoAndAudio sampleSys ["/tmp/ffmpeg.exe"]
        ⟨none, none, sampleProbe, ["out_time_ms=-5000".toList], none⟩ "/tmp/ffmpeg.exe"
        "d/video.mp4" "d/audio.mp4" "d/out.mp4").progress = [F64.fin (-(1 / 2))] ∧
      ¬ ((0 : ℚ) ≤ -(1 / 2)) := by
  constructor
  · rw [mergeVideoAndAudio_progress _ _ _ _ _ _ _ rfl rfl]
    have ht : totalDurationOf sampleSys ["/tmp/ffmpeg.exe"] sampleProbe = 10000 := by decide
    have hp : ParseInt "-5000".toList = (-5000, none) := by decide
    have := progressOfLine_of_parse (D := 10000) (by norm_num) hp
    rw [quotient_neg_half] at this
    simp only [ht, List.flatMap_cons, List.flatMap_nil, List.append_nil]
    rw [show "out_time_ms=-5000".toList = "out_time_ms=".toList ++ "-5000".toList from rfl, this]
    norm_num
  · norm_num

/-- C10 (amended): every value `mergeVideoAndAudio` passes to the progress bar comes from
one of its lines `out_time_ms=<n>`, is a finite number, and is at most 1; it is at least 0
when `n` is not negative, and it is negative when `n` is negative. -/
theorem C10_forwarded_fraction_bounds (sys : Sys) (files : List String) (run : MergeRun)
    (a b c d : String) (v : F64)
    (hv : v ∈ (mergeVideoAndAudio sys files run a b c d).progress) :
    ∃ (line : List Char) (n : Int) (q : ℚ), line ∈ run.lines ∧
      ParseInt (trimPrefix line "out_time_ms=".toList) = (n, none) ∧
      v = F64.fin q ∧ q ≤ 1 ∧ (0 ≤ n → 0 ≤ q) ∧ (n < 0 → q < 0) := by
  have hprog : v ∈ run.lines.flatMap (progressOfLine (totalDurationOf sys files run.probe)) := by
    unfold mergeVideoAndAudio at hv
    cases h1 : run.stdoutPipeErr with
    | some e => rw [h1] at hv; simp at hv
    | none =>
      cases h2 : run.startErr with
      | some e => rw [h1, h2] at hv; simp at hv
      | none =>
        rw [h1, h2] at hv
        cases h3 : run.waitErr with
        | some e => rw [h3] at hv; exact hv
        | none => rw [h3] at hv; exact hv
  obtain ⟨line, hline, hmem⟩ := List.mem_flatMap.mp hprog
  obtain ⟨n, q, hparse, hD, hvq, hq⟩ := progressOfLine_mem hmem
  refine ⟨line, n, q, hline, hparse, hvq, ?_, ?_, ?_⟩
  · rw [hq]; exact min_le_left _ _
  · intro hn
    rw [hq]
    exact le_min zero_le_one (quotient_nonneg hn hD)
  · intro hn
    rw [hq]
    exact lt_of_le_of_lt (min_le_right _ _) (quotient_neg hn hD)

/-- Witness for C10: the value forwarded for the line `out_time_ms=5000` of the sample
merge. -/
theorem C10_forwarded_fraction_bounds_witness :
    ∃ (line : List Char) (n : Int) (q : ℚ), line ∈ sampleMerge.lines ∧
      ParseInt (trimPrefix line "out_time_ms=".toList) = (n, none) ∧
      clampOne (float64Div 5000 10000) = F64.fin q ∧ q ≤ 1 ∧ (0 ≤ n → 0 ≤ q) ∧
      (n < 0 → q < 0) :=
  C10_forwarded_fraction_bounds sampleSys ["/tmp/ffmpeg.exe"] sampleMerge "/tmp/ffmpeg.exe"
    "d/video.mp4" "d/audio.mp4" "d/out.mp4" (clampOne (float64Div 5000 10000))
    (List.mem_singleton.mpr rfl)

end VideoAudioMerger
